import Mathlib

/-!
Shallow embedding of the core of `pg-crud-api` (a zero-configuration
PostgreSQL CRUD gateway written in TypeScript) together with proofs about
the embedded functions.

The embedding covers:
* the schema model produced by `src/db/introspector.ts` (`ColumnInfo`,
  `ForeignKey`, `TableInfo`, `DatabaseSchema`) and its deterministic
  SHA-256 digest `computeDatabaseHash`;
* the parameterized-SQL builders of `src/db/query-builder.ts`
  (`buildSelectQuery`, `buildCountQuery`, insert/update/delete builders,
  filter parsing, search, pagination clamping);
* the request helpers of `src/routes/crud.ts` (`buildPkParams`,
  `parsePkOrReply`, the delete response envelope);
* the stateless credential system of `src/auth/api-key.ts`
  (`generateApiKey`, `verifyApiKey`, `hasPermission`,
  `validatePermissions`), with the HMAC primitive abstracted as a
  function parameter.

JavaScript strings are modelled through `String`/`List Char`; JavaScript
objects (string-keyed records) are modelled as insertion-ordered
association lists; `undefined`/absent values are modelled with `Option`;
functions that `throw` return `Except String`.
-/

namespace PgCrud

-- ════════════════════════════════════════════════════════════════════
-- §1  Generic JS-style string helpers (char-list based, executable)
-- ════════════════════════════════════════════════════════════════════

/-- Join a list of strings with a separator, as JS `Array.prototype.join`. -/
def joinSep (sep : String) : List String → String
  | [] => ""
  | [s] => s
  | s :: rest => s ++ sep ++ joinSep sep rest

/-- JS `String.prototype.split(',')` on char lists: splitting the empty
string yields one empty part. -/
def splitChar (c : Char) : List Char → List (List Char)
  | [] => [[]]
  | x :: xs =>
    match splitChar c xs with
    | h :: t => if x = c then [] :: h :: t else (x :: h) :: t
    | [] => if x = c then [[], []] else [[x]]

/-- JS `value.split(",")` as a `String` operation. -/
def splitOnComma (s : String) : List String :=
  (splitChar ',' s.data).map String.mk

/-- JS `String.prototype.trim`: strip leading and trailing whitespace
(modelled with `Char.isWhitespace`). -/
def jsTrim (s : String) : String :=
  String.mk (((s.data.dropWhile Char.isWhitespace).reverse.dropWhile Char.isWhitespace).reverse)

/-- JS `String.prototype.toLowerCase`, modelled per-character. -/
def toLowerStr (s : String) : String :=
  String.mk (s.data.map Char.toLower)

/-- Char-list prefix test (JS `String.prototype.startsWith`). -/
def listIsPref : List Char → List Char → Bool
  | [], _ => true
  | _ :: _, [] => false
  | a :: as_, b :: bs => a = b && listIsPref as_ bs

-- ════════════════════════════════════════════════════════════════════
-- §2  Schema model (src/db/introspector.ts)
-- ════════════════════════════════════════════════════════════════════

/-- `ColumnInfo` from `src/db/introspector.ts`. -/
structure ColumnInfo where
  name : String
  dataType : String
  udtName : String
  isNullable : Bool
  hasDefault : Bool
  defaultValue : Option String
  maxLength : Option Int
  ordinalPosition : Int
deriving DecidableEq, Repr

/-- `ForeignKey` from `src/db/introspector.ts`. -/
structure ForeignKey where
  constraintName : String
  column : String
  refSchema : String
  refTable : String
  refColumn : String
deriving DecidableEq, Repr

/-- `TableInfo` from `src/db/introspector.ts`. -/
structure TableInfo where
  schema : String
  name : String
  columns : List ColumnInfo
  primaryKeys : List String
  foreignKeys : List ForeignKey
  fqn : String
  routePath : String
deriving DecidableEq, Repr

/-- `DatabaseSchema` from `src/db/introspector.ts`.  The `Map` keyed by
`fqn` is modelled as the insertion-ordered list of its entries. -/
structure DatabaseSchema where
  tables : List TableInfo
  schemas : List String
deriving DecidableEq, Repr

-- ════════════════════════════════════════════════════════════════════
-- §3  Query values and options (src/db/query-builder.ts)
-- ════════════════════════════════════════════════════════════════════

/-- The JS `unknown` values that flow into parameter vectors.  Filter
operands are strings, lists of strings (from `in`), or `null`; pagination
binds numbers; write payloads may carry booleans as well. -/
inductive Value where
  | vNull
  | vStr (s : String)
  | vInt (n : Int)
  | vBool (b : Bool)
  | vStrList (l : List String)
deriving DecidableEq, Repr

/-- `QueryResult` from `src/db/query-builder.ts`: SQL text plus the
ordered parameter vector. -/
structure QueryResult where
  text : String
  values : List Value
deriving DecidableEq, Repr

/-- `ListOptions` from `src/db/query-builder.ts`.  `filters` is the
`Record<string, unknown>` of `filter.*` query parameters, modelled as an
insertion-ordered association list whose values have already passed
through JS `String(...)` (as `parseFiltersFromObject` does). -/
structure ListOptions where
  page : Option Int := none
  pageSize : Option Int := none
  sortBy : Option String := none
  sortOrder : Option String := none
  filters : Option (List (String × String)) := none
  search : Option String := none
  searchColumns : Option (List String) := none
  select : Option (List String) := none
deriving DecidableEq, Repr

/-- The configuration fields read by the query builder (`config.ts` is
not part of the provided sources; the documented defaults are
`defaultPageSize = 50`, `maxPageSize = 1000`). -/
structure Config where
  defaultPageSize : Int
  maxPageSize : Int
deriving DecidableEq, Repr

/-- JS `x || d` for an optional number: `undefined`, `0` (and `NaN`,
which the integer model cannot produce) are falsy. -/
def jsOrInt (o : Option Int) (d : Int) : Int :=
  match o with
  | none => d
  | some v => if v = 0 then d else v

/-- `FILTER_OPERATORS` from `src/db/query-builder.ts`. -/
def filterOperators (op : String) : Option String :=
  if op = "eq" then some "="
  else if op = "neq" then some "!="
  else if op = "gt" then some ">"
  else if op = "gte" then some ">="
  else if op = "lt" then some "<"
  else if op = "lte" then some "<="
  else if op = "like" then some "LIKE"
  else if op = "ilike" then some "ILIKE"
  else if op = "is" then some "IS"
  else if op = "in" then some "IN"
  else none

/-- `quoteIdent`: wrap in double quotes, doubling embedded quotes. -/
def quoteIdent (name : String) : String :=
  "\"" ++ String.mk (name.data.flatMap fun c => if c = '"' then ['"', '"'] else [c]) ++ "\""

/-- `escapeLike`: backslash-escape `%`, `_` and `\`. -/
def escapeLike (value : String) : String :=
  String.mk (value.data.flatMap fun c => if c = '%' ∨ c = '_' ∨ c = '\\' then ['\\', c] else [c])

/-- `isValidColumn`. -/
def isValidColumn (table : TableInfo) (col : String) : Bool :=
  table.columns.any fun c => c.name = col

/-- `getColumnNames`: star, or the quoted valid selection, or an error
when none of the requested columns exist. -/
def getColumnNames (table : TableInfo) (select : Option (List String)) : Except String String :=
  match select with
  | some sel =>
    if sel.isEmpty then .ok "*"
    else
      let valid := sel.filter (isValidColumn table)
      if valid.isEmpty then
        .error ("None of the requested columns exist: " ++ joinSep ", " sel ++
          ". Available: " ++ joinSep ", " (table.columns.map (·.name)))
      else .ok (joinSep ", " (valid.map quoteIdent))
  | none => .ok "*"

/-- `ParsedFilter`. -/
structure ParsedFilter where
  column : String
  operator : String
  value : Value
deriving DecidableEq, Repr

/-- `parseOperatorAndValue`: split at the first colon when the prefix is
a known operator, else treat the whole value as an `eq` operand. -/
def parseOperatorAndValue (strValue : String) : String × String :=
  match strValue.data.findIdx? (fun c => c = ':') with
  | none => ("eq", strValue)
  | some i =>
    if i = 0 then ("eq", strValue)
    else
      let maybeOp := String.mk (strValue.data.take i)
      if (filterOperators maybeOp).isSome then
        (maybeOp, String.mk (strValue.data.drop (i + 1)))
      else ("eq", strValue)

/-- `coerceFilterValue`: `is` maps the literal `null` (case-insensitive)
to SQL NULL; `in` splits on commas with a 100-item cap. -/
def coerceFilterValue (op : String) (rawValue : String) : Except String Value :=
  if op = "is" then
    .ok (if toLowerStr rawValue = "null" then Value.vNull else Value.vStr rawValue)
  else if op = "in" then
    let parts := splitOnComma rawValue
    if parts.length > 100 then
      .error ("IN filter limited to 100 values, got " ++ toString parts.length)
    else .ok (Value.vStrList parts)
  else .ok (Value.vStr rawValue)

/-- `validateFilterColumn`. -/
def validateFilterColumn (column : String) (table : TableInfo) : Except String Unit :=
  if isValidColumn table column then .ok ()
  else .error ("Filter column '" ++ column ++ "' does not exist. " ++
    "Available: " ++ joinSep ", " (table.columns.map (·.name)))

/-- `parseFiltersFromObject`: iterate the filter record in insertion
order, validating each column and parsing each operator/value. -/
def parseFiltersFromObject (filters : List (String × String)) (table : TableInfo) :
    Except String (List ParsedFilter) :=
  match filters with
  | [] => .ok []
  | (column, rawValue) :: rest =>
    match validateFilterColumn column table with
    | .error e => .error e
    | .ok _ =>
      let p := parseOperatorAndValue rawValue
      match coerceFilterValue p.1 p.2 with
      | .error e => .error e
      | .ok value =>
        match parseFiltersFromObject rest table with
        | .error e => .error e
        | .ok others => .ok (⟨column, p.1, value⟩ :: others)

/-- One iteration of the filter loop inside `buildWhereClauses`:
produces the clause text, the pushed values, and the next `$` index. -/
def filterClause (f : ParsedFilter) (paramIdx : Nat) : String × List Value × Nat :=
  let sqlOp := (filterOperators f.operator).getD "="
  if f.operator = "is" then
    (quoteIdent f.column ++ " IS " ++ (if f.value = Value.vNull then "NULL" else "NOT NULL"),
      [], paramIdx)
  else if f.operator = "in" then
    match f.value with
    | Value.vStrList items =>
      let placeholders := (List.range items.length).map fun i => "$" ++ toString (paramIdx + i)
      (quoteIdent f.column ++ " IN (" ++ joinSep ", " placeholders ++ ")",
        items.map Value.vStr, paramIdx + items.length)
    | v => (quoteIdent f.column ++ " " ++ sqlOp ++ " $" ++ toString paramIdx, [v], paramIdx + 1)
  else
    (quoteIdent f.column ++ " " ++ sqlOp ++ " $" ++ toString paramIdx, [f.value], paramIdx + 1)

/-- The filter loop of `buildWhereClauses`. -/
def filterFold : List ParsedFilter → Nat → List String × List Value × Nat
  | [], idx => ([], [], idx)
  | f :: rest, idx =>
    let s := filterClause f idx
    let r := filterFold rest s.2.2
    (s.1 :: r.1, s.2.1 ++ r.2.1, r.2.2)

/-- The search block of `buildWhereClauses`: one shared placeholder over
the valid search columns, with the escaped term bound once. -/
def searchStep (table : TableInfo) (opts : ListOptions) (idx : Nat) :
    List String × List Value × Nat :=
  match opts.search, opts.searchColumns with
  | some s, some cols =>
    if s = "" ∨ cols.isEmpty then ([], [], idx)
    else
      let valid := cols.filter (isValidColumn table)
      let searchClauses := valid.map fun c => quoteIdent c ++ "::text ILIKE $" ++ toString idx
      if searchClauses.isEmpty then ([], [], idx)
      else (["(" ++ joinSep " OR " searchClauses ++ ")"],
        [Value.vStr ("%" ++ escapeLike s ++ "%")], idx + 1)
  | _, _ => ([], [], idx)

/-- `WhereResult`. -/
structure WhereResult where
  clause : String
  values : List Value
  nextParamIdx : Nat
deriving DecidableEq, Repr

/-- `buildWhereClauses`: filters then search, conjoined with AND. -/
def buildWhereClauses (table : TableInfo) (opts : ListOptions) (startParamIdx : Nat) :
    Except String WhereResult :=
  match (match opts.filters with
    | some fs => parseFiltersFromObject fs table
    | none => .ok []) with
  | .error e => .error e
  | .ok parsed =>
    let f := filterFold parsed startParamIdx
    let s := searchStep table opts f.2.2
    let allClauses := f.1 ++ s.1
    let clause := if allClauses.isEmpty then "" else " WHERE " ++ joinSep " AND " allClauses
    .ok ⟨clause, f.2.1 ++ s.2.1, s.2.2⟩

/-- The sort-column fallback of `buildSelectQuery`:
`table.primaryKeys[0] ?? table.columns[0]?.name`. -/
def fallbackSortCol (table : TableInfo) : Option String :=
  match table.primaryKeys with
  | pk :: _ => some pk
  | [] => table.columns.head?.map (·.name)

/-- `buildSelectQuery`: pagination clamping, projection, WHERE, ORDER BY
with fallback, and LIMIT/OFFSET bound as the two trailing parameters. -/
def buildSelectQuery (cfg : Config) (table : TableInfo) (opts : ListOptions) :
    Except String QueryResult :=
  let page := max 1 (jsOrInt opts.page 1)
  let pageSize := min cfg.maxPageSize (max 1 (jsOrInt opts.pageSize cfg.defaultPageSize))
  let offset := (page - 1) * pageSize
  match getColumnNames table opts.select with
  | .error e => .error e
  | .ok columns =>
    match buildWhereClauses table opts 1 with
    | .error e => .error e
    | .ok wr =>
      let base := "SELECT " ++ columns ++ " FROM " ++ table.fqn ++ wr.clause
      let sortCol :=
        match opts.sortBy with
        | some s => if s ≠ "" ∧ isValidColumn table s then some s else fallbackSortCol table
        | none => fallbackSortCol table
      let withSort :=
        match sortCol with
        | some c =>
          base ++ " ORDER BY " ++ quoteIdent c ++ " " ++
            (if opts.sortOrder = some "desc" then "DESC" else "ASC")
        | none => base
      let text := withSort ++ " LIMIT $" ++ toString wr.nextParamIdx ++
        " OFFSET $" ++ toString (wr.nextParamIdx + 1)
      .ok ⟨text, wr.values ++ [Value.vInt pageSize, Value.vInt offset]⟩

/-- `buildCountQuery`: identical WHERE over the same values, projecting
`COUNT(*) AS total`. -/
def buildCountQuery (table : TableInfo) (opts : ListOptions) : Except String QueryResult :=
  match buildWhereClauses table opts 1 with
  | .error e => .error e
  | .ok wr => .ok ⟨"SELECT COUNT(*) AS total FROM " ++ table.fqn ++ wr.clause, wr.values⟩

-- ════════════════════════════════════════════════════════════════════
-- §4  By-PK builders (src/db/query-builder.ts) and crud route helpers
-- ════════════════════════════════════════════════════════════════════

/-- JS record lookup on an insertion-ordered association list (keys are
unique by construction of JS objects; the first match is returned). -/
def jsLookup (m : List (String × Value)) (k : String) : Option Value :=
  m.lookup k

/-- The WHERE loop shared by the by-PK builders: one `"pk" = $i` clause
per primary-key column, pushing `pkValues[pk]` in PK order. -/
def pkWhereClauses (pks : List String) (pkValues : List (String × Value)) (startIdx : Nat) :
    List String × List Value :=
  match pks with
  | [] => ([], [])
  | pk :: rest =>
    let r := pkWhereClauses rest pkValues (startIdx + 1)
    ((quoteIdent pk ++ " = $" ++ toString startIdx) :: r.1,
      (jsLookup pkValues pk).getD Value.vNull :: r.2)

/-- `buildSelectByPkQuery`. -/
def buildSelectByPkQuery (table : TableInfo) (pkValues : List (String × Value))
    (select : Option (List String)) : Except String QueryResult :=
  match getColumnNames table select with
  | .error e => .error e
  | .ok columns =>
    let w := pkWhereClauses table.primaryKeys pkValues 1
    .ok ⟨"SELECT " ++ columns ++ " FROM " ++ table.fqn ++ " WHERE " ++
      joinSep " AND " w.1 ++ " LIMIT 1", w.2⟩

/-- Modelled from the spec: `hasSoftDelete` is exported by the
repository's query builder and imported by `routes/crud.ts`, the MCP
server and the unit tests, but its definition is missing from the
provided `query-builder.ts`.  The spec defines soft delete as the policy
for entities possessing a `deleted_at` column. -/
def hasSoftDelete (table : TableInfo) : Bool :=
  table.columns.any fun c => c.name = "deleted_at"

/-- Modelled from the spec: `hasUpdatedAt` is imported by the unit tests
but missing from the provided `query-builder.ts`; the spec keys the
automatic-timestamp behaviour on the entity having an `updated_at`
column. -/
def hasUpdatedAt (table : TableInfo) : Bool :=
  table.columns.any fun c => c.name = "updated_at"

/-- Modelled from the spec: the delete builder used by `routes/crud.ts`.
The provided `query-builder.ts` contains only the hard-delete branch; the
spec (§4.3 Delete) prescribes that an entity with a `deleted_at` column
generates `UPDATE … SET "deleted_at" = NOW()` (and `"updated_at" = NOW()`
if that column also exists) with WHERE over PK columns and
`RETURNING *`, and a plain `DELETE … RETURNING *` otherwise. -/
def buildDeleteQueryFull (table : TableInfo) (pkValues : List (String × Value)) : QueryResult :=
  let w := pkWhereClauses table.primaryKeys pkValues 1
  if hasSoftDelete table then
    let setClause := "\"deleted_at\" = NOW()" ++
      (if hasUpdatedAt table then ", \"updated_at\" = NOW()" else "")
    ⟨"UPDATE " ++ table.fqn ++ " SET " ++ setClause ++ " WHERE " ++
      joinSep " AND " w.1 ++ " RETURNING *", w.2⟩
  else
    ⟨"DELETE FROM " ++ table.fqn ++ " WHERE " ++ joinSep " AND " w.1 ++ " RETURNING *", w.2⟩

/-- Modelled from the spec: the insert builder with automatic
`updated_at`.  The provided `query-builder.ts` has `buildInsertQuery`
without the timestamp branch the spec (§4.3 Insert) and the unit tests
describe: when the entity has an `updated_at` column and the payload
omits it, the column list gains `updated_at` and the VALUES row gains the
literal SQL token `NOW()` at that position, consuming no parameter. -/
def buildInsertQueryAuto (table : TableInfo) (data : List (String × Value)) :
    Except String QueryResult :=
  let validColumns := table.columns.filter fun c => (jsLookup data c.name).isSome
  if validColumns.isEmpty then .error "No valid columns provided for insert"
  else
    let auto := hasUpdatedAt table && (jsLookup data "updated_at").isNone
    let colNames := validColumns.map (fun c => quoteIdent c.name) ++
      (if auto then [quoteIdent "updated_at"] else [])
    let placeholders := (List.range validColumns.length).map (fun i => "$" ++ toString (i + 1)) ++
      (if auto then ["NOW()"] else [])
    let values := validColumns.map fun c => (jsLookup data c.name).getD Value.vNull
    .ok ⟨"INSERT INTO " ++ table.fqn ++ " (" ++ joinSep ", " colNames ++ ") VALUES (" ++
      joinSep ", " placeholders ++ ") RETURNING *", values⟩

/-- The SET loop of the update builder. -/
def setClauses (cols : List ColumnInfo) (data : List (String × Value)) (startIdx : Nat) :
    List String × List Value :=
  match cols with
  | [] => ([], [])
  | c :: rest =>
    let r := setClauses rest data (startIdx + 1)
    ((quoteIdent c.name ++ " = $" ++ toString startIdx) :: r.1,
      (jsLookup data c.name).getD Value.vNull :: r.2)

/-- Modelled from the spec: the update builder with automatic
`updated_at`.  The provided `query-builder.ts` has `buildUpdateQuery`
(SET over non-PK payload columns, WHERE over PK columns, `RETURNING *`)
without the branch the spec (§4.3 Partial/full update) and the unit tests
describe: when the entity has an `updated_at` column absent from the
payload, `"updated_at" = NOW()` is appended to the SET list as a literal,
consuming no parameter. -/
def buildUpdateQueryAuto (table : TableInfo) (pkValues data : List (String × Value)) :
    Except String QueryResult :=
  let updateColumns := table.columns.filter fun c =>
    (jsLookup data c.name).isSome && !(table.primaryKeys.contains c.name)
  if updateColumns.isEmpty then .error "No valid columns provided for update"
  else
    let s := setClauses updateColumns data 1
    let auto := hasUpdatedAt table && (jsLookup data "updated_at").isNone
    let allSet := s.1 ++ (if auto then ["\"updated_at\" = NOW()"] else [])
    let w := pkWhereClauses table.primaryKeys pkValues (updateColumns.length + 1)
    .ok ⟨"UPDATE " ++ table.fqn ++ " SET " ++ joinSep ", " allSet ++ " WHERE " ++
      joinSep " AND " w.1 ++ " RETURNING *", s.2 ++ w.2⟩

/-- `buildPkParams` from `src/routes/crud.ts`: a single-column PK takes
the whole `:id` segment verbatim; a composite PK splits on commas and
requires exactly `|pk|` non-empty parts. -/
def buildPkParams (table : TableInfo) (id : String) : Option (List (String × String)) :=
  match table.primaryKeys with
  | [pk] => some [(pk, id)]
  | pks =>
    let parts := splitOnComma id
    if parts.length ≠ pks.length ∨ parts.any (fun p => jsTrim p = "") then none
    else some (pks.zip parts)

/-- The reply sent by `parsePkOrReply` when `buildPkParams` fails. -/
structure ErrorReply where
  status : Nat
  error : String
  message : String
deriving DecidableEq, Repr

/-- The 400 message of `parsePkOrReply`, naming the expected arity. -/
def pkArityMessage (table : TableInfo) : String :=
  "Composite primary key expects " ++ toString table.primaryKeys.length ++
    " values (" ++ joinSep "," table.primaryKeys ++ ")"

/-- `parsePkOrReply` from `src/routes/crud.ts`: parse the PK segment or
send a 400 response. -/
def parsePkOrReply (table : TableInfo) (id : String) : Except ErrorReply (List (String × String)) :=
  match buildPkParams table id with
  | some pk => .ok pk
  | none => .error ⟨400, "Bad request", pkArityMessage table⟩

/-- The response envelope of the DELETE handler in `routes/crud.ts`
(without the returned row, which comes from the database). -/
structure DeleteEnvelope where
  deleted : Bool
  softDelete : Bool
deriving DecidableEq, Repr

/-- The DELETE handler computes `{ deleted: true, softDelete: hasSoftDelete(table) }`. -/
def deleteResponse (table : TableInfo) : DeleteEnvelope :=
  ⟨true, hasSoftDelete table⟩

-- ════════════════════════════════════════════════════════════════════
-- §5  Concrete tables from tests/fixtures/tables.ts
-- ════════════════════════════════════════════════════════════════════

/-- Shorthand for fixture columns. -/
def mkCol (name dataType udtName : String) (isNullable hasDefault : Bool)
    (defaultValue : Option String) (maxLength : Option Int) (ordinalPosition : Int) : ColumnInfo :=
  ⟨name, dataType, udtName, isNullable, hasDefault, defaultValue, maxLength, ordinalPosition⟩

/-- `makeUsersTable` from `tests/fixtures/tables.ts`. -/
def usersTable : TableInfo :=
  { schema := "public"
    name := "users"
    fqn := "\"public\".\"users\""
    routePath := "users"
    primaryKeys := ["id"]
    foreignKeys := []
    columns :=
      [ mkCol "id" "integer" "int4" false true (some "nextval('users_id_seq'::regclass)") none 1
      , mkCol "name" "character varying" "varchar" false false none (some 255) 2
      , mkCol "email" "character varying" "varchar" false false none (some 255) 3
      , mkCol "active" "boolean" "bool" true true (some "true") none 4 ] }

/-- `makeCompositePkTable` from `tests/fixtures/tables.ts`. -/
def compositePkTable : TableInfo :=
  { schema := "public"
    name := "user_roles"
    fqn := "\"public\".\"user_roles\""
    routePath := "user_roles"
    primaryKeys := ["user_id", "role_id"]
    foreignKeys := [⟨"user_roles_user_id_fkey", "user_id", "public", "users", "id"⟩]
    columns :=
      [ mkCol "user_id" "integer" "int4" false false none none 1
      , mkCol "role_id" "integer" "int4" false false none none 2
      , mkCol "granted_at" "timestamp with time zone" "timestamptz" false true (some "now()") none 3 ] }

/-- A soft-delete entity in the shape of the spec's `public.posts`
scenario (the fixture `makeSoftDeleteTable` is referenced by the unit
tests; its column set is visible there: `id`, `user_id`, `title`,
`updated_at`, `deleted_at`). -/
def postsTable : TableInfo :=
  { schema := "public"
    name := "posts"
    fqn := "\"public\".\"posts\""
    routePath := "posts"
    primaryKeys := ["id"]
    foreignKeys := []
    columns :=
      [ mkCol "id" "integer" "int4" false true (some "nextval('posts_id_seq'::regclass)") none 1
      , mkCol "user_id" "integer" "int4" false false none none 2
      , mkCol "title" "character varying" "varchar" false false none (some 255) 3
      , mkCol "updated_at" "timestamp with time zone" "timestamptz" true false none none 4
      , mkCol "deleted_at" "timestamp with time zone" "timestamptz" true false none none 5 ] }

-- ════════════════════════════════════════════════════════════════════
-- §6  Bytes, base64url, UTF-8, hex (node:crypto / Buffer primitives)
-- ════════════════════════════════════════════════════════════════════

/-- Lowercase hex digit for a value below 16. -/
def hexDigitChar (n : Nat) : Char :=
  "0123456789abcdef".data.getD n 'x'

/-- Hex digit value (Node's `Buffer.from(_, "hex")` accepts both cases). -/
def hexVal (c : Char) : Option Nat :=
  if c = '0' then some 0 else if c = '1' then some 1
  else if c = '2' then some 2 else if c = '3' then some 3
  else if c = '4' then some 4 else if c = '5' then some 5
  else if c = '6' then some 6 else if c = '7' then some 7
  else if c = '8' then some 8 else if c = '9' then some 9
  else if c = 'a' ∨ c = 'A' then some 10 else if c = 'b' ∨ c = 'B' then some 11
  else if c = 'c' ∨ c = 'C' then some 12 else if c = 'd' ∨ c = 'D' then some 13
  else if c = 'e' ∨ c = 'E' then some 14 else if c = 'f' ∨ c = 'F' then some 15
  else none

/-- Node `Buffer.from(s, "hex")`: decode pairs of hex digits, stopping at
the first invalid pair (an odd trailing digit is dropped). -/
def hexDecodePairs : List Char → List Nat
  | a :: b :: rest =>
    match hexVal a, hexVal b with
    | some x, some y => (16 * x + y) :: hexDecodePairs rest
    | _, _ => []
  | _ => []

/-- The base64url alphabet (RFC 4648 §5). -/
def b64Char (n : Nat) : Char :=
  "ABCDEFGHIJKLMNOPQRSTUVWXYZabcdefghijklmnopqrstuvwxyz0123456789-_".data.getD n 'x'

/-- Base64url encoding of a byte list, without padding (as Node's
`buf.toString("base64url")`). -/
def b64urlEncodeBytes : List Nat → List Char
  | [] => []
  | [a] => [b64Char (a / 4), b64Char (a % 4 * 16)]
  | [a, b] => [b64Char (a / 4), b64Char (a % 4 * 16 + b / 16), b64Char (b % 16 * 4)]
  | a :: b :: c :: rest =>
    b64Char (a / 4) :: b64Char (a % 4 * 16 + b / 16) :: b64Char (b % 16 * 4 + c / 64) ::
      b64Char (c % 64) :: b64urlEncodeBytes rest

/-- Value of a base64/base64url alphabet character (Node's decoder
accepts both alphabets and skips other characters). -/
def b64Val (c : Char) : Option Nat :=
  if 'A' ≤ c ∧ c ≤ 'Z' then some (c.toNat - 65)
  else if 'a' ≤ c ∧ c ≤ 'z' then some (c.toNat - 97 + 26)
  else if '0' ≤ c ∧ c ≤ '9' then some (c.toNat - 48 + 52)
  else if c = '-' ∨ c = '+' then some 62
  else if c = '_' ∨ c = '/' then some 63
  else none

/-- Regroup 6-bit values into bytes, dropping a dangling sextet (as
base64 decoding does). -/
def b64DecodeVals : List Nat → List Nat
  | a :: b :: c :: d :: rest =>
    (a * 4 + b / 16) :: (b % 16 * 16 + c / 4) :: (c % 4 * 64 + d) :: b64DecodeVals rest
  | [a, b] => [a * 4 + b / 16]
  | [a, b, c] => [a * 4 + b / 16, b % 16 * 16 + c / 4]
  | _ => []

/-- UTF-8 encoding of one character. -/
def utf8EncodeChar (c : Char) : List Nat :=
  let n := c.toNat
  if n < 128 then [n]
  else if n < 2048 then [192 + n / 64, 128 + n % 64]
  else if n < 65536 then [224 + n / 4096, 128 + n / 64 % 64, 128 + n % 64]
  else [240 + n / 262144, 128 + n / 4096 % 64, 128 + n / 64 % 64, 128 + n % 64]

/-- UTF-8 encoding of a string. -/
def utf8Encode (s : String) : List Nat :=
  s.data.flatMap utf8EncodeChar

/-- UTF-8 decoding (fuelled; invalid code points fall back through
`Char.ofNat`'s default — no claim depends on malformed input). -/
def utf8DecodeAux : Nat → List Nat → List Char
  | 0, _ => []
  | _ + 1, [] => []
  | fuel + 1, b :: rest =>
    if b < 128 then Char.ofNat b :: utf8DecodeAux fuel rest
    else if b < 224 then
      match rest with
      | b2 :: rest2 => Char.ofNat ((b - 192) * 64 + (b2 - 128)) :: utf8DecodeAux fuel rest2
      | [] => [Char.ofNat 65533]
    else if b < 240 then
      match rest with
      | b2 :: b3 :: rest3 =>
        Char.ofNat ((b - 224) * 4096 + (b2 - 128) * 64 + (b3 - 128)) :: utf8DecodeAux fuel rest3
      | _ => [Char.ofNat 65533]
    else
      match rest with
      | b2 :: b3 :: b4 :: rest4 =>
        Char.ofNat ((b - 240) * 262144 + (b2 - 128) * 4096 + (b3 - 128) * 64 + (b4 - 128)) ::
          utf8DecodeAux fuel rest4
      | _ => [Char.ofNat 65533]

/-- `toBase64url` from `src/auth/api-key.ts`. -/
def toBase64url (s : String) : String :=
  String.mk (b64urlEncodeBytes (utf8Encode s))

/-- `fromBase64url` from `src/auth/api-key.ts`. -/
def fromBase64url (b64 : String) : String :=
  let bytes := b64DecodeVals (b64.data.filterMap b64Val)
  String.mk (utf8DecodeAux bytes.length bytes)

-- ════════════════════════════════════════════════════════════════════
-- §7  A JSON value model and `JSON.parse` / `JSON.stringify`
-- ════════════════════════════════════════════════════════════════════

/-- JSON values as produced by `JSON.parse`.  Numbers keep their raw
lexeme: the only consumer (`parseKeyData`) never reads a numeric value,
it only compares against the permission strings. -/
inductive JVal where
  | jnull
  | jbool (b : Bool)
  | jnum (raw : String)
  | jstr (s : String)
  | jarr (items : List JVal)
  | jobj (fields : List (String × JVal))

/-- JSON insignificant whitespace. -/
def jsonWs (c : Char) : Bool :=
  c = ' ' ∨ c = '\n' ∨ c = '\r' ∨ c = '\t'

/-- Single-character JSON string escapes (`\u` handled separately). -/
def escCharJ (e : Char) : Option Char :=
  if e = '"' then some '"'
  else if e = '\\' then some '\\'
  else if e = '/' then some '/'
  else if e = 'b' then some (Char.ofNat 8)
  else if e = 'f' then some (Char.ofNat 12)
  else if e = 'n' then some '\n'
  else if e = 'r' then some '\r'
  else if e = 't' then some '\t'
  else none

/-- Parse the body of a JSON string after the opening quote; returns the
decoded characters and the input after the closing quote.  Surrogate
pairs from `\u` escapes are not recombined (no claim depends on them). -/
def jparseStrChars : Nat → List Char → Option (List Char × List Char)
  | 0, _ => none
  | _ + 1, [] => none
  | fuel + 1, c :: rest =>
    if c = '"' then some ([], rest)
    else if c = '\\' then
      match rest with
      | [] => none
      | e :: rest2 =>
        if e = 'u' then
          match rest2 with
          | h1 :: h2 :: h3 :: h4 :: rest3 =>
            match hexVal h1, hexVal h2, hexVal h3, hexVal h4 with
            | some a, some b, some d, some e2 =>
              match jparseStrChars fuel rest3 with
              | some (tail, rem) =>
                some (Char.ofNat (4096 * a + 256 * b + 16 * d + e2) :: tail, rem)
              | none => none
            | _, _, _, _ => none
          | _ => none
        else
          match escCharJ e with
          | some ec =>
            match jparseStrChars fuel rest2 with
            | some (tail, rem) => some (ec :: tail, rem)
            | none => none
          | none => none
    else if c.toNat < 32 then none
    else
      match jparseStrChars fuel rest with
      | some (tail, rem) => some (c :: tail, rem)
      | none => none

/-- Parse a JSON number per the JSON grammar, returning its lexeme. -/
def jparseNumber (cs : List Char) : Option (String × List Char) :=
  let signed := match cs with
    | '-' :: r => (['-'], r)
    | _ => (([] : List Char), cs)
  match signed.2 with
  | c :: cs2 =>
    if ¬ c.isDigit then none
    else
      let intRes : Option (List Char × List Char) :=
        if c = '0' then
          match cs2 with
          | d :: _ => if d.isDigit then none else some (['0'], cs2)
          | [] => some (['0'], cs2)
        else some (c :: cs2.takeWhile Char.isDigit, cs2.dropWhile Char.isDigit)
      match intRes with
      | none => none
      | some (intPart, cs3) =>
        let fracRes : Option (List Char × List Char) :=
          match cs3 with
          | '.' :: d :: r =>
            if d.isDigit then
              some ('.' :: d :: r.takeWhile Char.isDigit, r.dropWhile Char.isDigit)
            else none
          | '.' :: [] => none
          | _ => some ([], cs3)
        match fracRes with
        | none => none
        | some (fracPart, cs4) =>
          let expRes : Option (List Char × List Char) :=
            match cs4 with
            | e :: r =>
              if e = 'e' ∨ e = 'E' then
                let sr := match r with
                  | '+' :: r2 => ([e, '+'], r2)
                  | '-' :: r2 => ([e, '-'], r2)
                  | _ => ([e], r)
                match sr.2 with
                | d :: r3 =>
                  if d.isDigit then
                    some (sr.1 ++ d :: r3.takeWhile Char.isDigit, r3.dropWhile Char.isDigit)
                  else none
                | [] => none
              else some ([], cs4)
            | [] => some ([], cs4)
          match expRes with
          | none => none
          | some (expPart, cs5) =>
            some (String.mk (signed.1 ++ intPart ++ fracPart ++ expPart), cs5)
  | [] => none

/-- The opening and closing braces as characters. -/
def lbraceChar : Char := Char.ofNat 123

/-- See `lbraceChar`. -/
def rbraceChar : Char := Char.ofNat 125

mutual

/-- Fuelled recursive-descent parser for one JSON value. -/
def jparseVal : Nat → List Char → Option (JVal × List Char)
  | 0, _ => none
  | fuel + 1, cs =>
    match cs.dropWhile jsonWs with
    | [] => none
    | c :: rest =>
      if c = 'n' then
        match rest with
        | 'u' :: 'l' :: 'l' :: r => some (JVal.jnull, r)
        | _ => none
      else if c = 't' then
        match rest with
        | 'r' :: 'u' :: 'e' :: r => some (JVal.jbool true, r)
        | _ => none
      else if c = 'f' then
        match rest with
        | 'a' :: 'l' :: 's' :: 'e' :: r => some (JVal.jbool false, r)
        | _ => none
      else if c = '"' then
        match jparseStrChars rest.length rest with
        | some (content, r) => some (JVal.jstr (String.mk content), r)
        | none => none
      else if c = '[' then
        match rest.dropWhile jsonWs with
        | ']' :: r => some (JVal.jarr [], r)
        | _ =>
          match jparseArrItems fuel rest with
          | some (items, r) => some (JVal.jarr items, r)
          | none => none
      else if c = lbraceChar then
        match rest.dropWhile jsonWs with
        | c2 :: r =>
          if c2 = rbraceChar then some (JVal.jobj [], r)
          else
            match jparseObjFields fuel rest with
            | some (fields, r2) => some (JVal.jobj fields, r2)
            | none => none
        | [] => none
      else
        match jparseNumber (c :: rest) with
        | some (raw, r) => some (JVal.jnum raw, r)
        | none => none

/-- Comma-separated values until `]`. -/
def jparseArrItems : Nat → List Char → Option (List JVal × List Char)
  | 0, _ => none
  | fuel + 1, cs =>
    match jparseVal fuel cs with
    | none => none
    | some (v, r) =>
      match r.dropWhile jsonWs with
      | ',' :: r2 =>
        match jparseArrItems fuel r2 with
        | some (vs, r3) => some (v :: vs, r3)
        | none => none
      | ']' :: r2 => some ([v], r2)
      | _ => none

/-- Comma-separated `"key": value` fields until the closing brace. -/
def jparseObjFields : Nat → List Char → Option (List (String × JVal) × List Char)
  | 0, _ => none
  | fuel + 1, cs =>
    match cs.dropWhile jsonWs with
    | '"' :: r =>
      match jparseStrChars r.length r with
      | some (key, r2) =>
        match r2.dropWhile jsonWs with
        | ':' :: r3 =>
          match jparseVal fuel r3 with
          | some (v, r4) =>
            match r4.dropWhile jsonWs with
            | ',' :: r5 =>
              match jparseObjFields fuel r5 with
              | some (fs, r6) => some ((String.mk key, v) :: fs, r6)
              | none => none
            | c2 :: r5 => if c2 = rbraceChar then some ([(String.mk key, v)], r5) else none
            | [] => none
          | none => none
        | _ => none
      | none => none
    | _ => none

end

/-- `JSON.parse` (fuelled; the fuel bounds the parser's call depth and is
ample for every input the embedded code feeds it). -/
def jsonParse (s : String) : Option JVal :=
  match jparseVal (2 * s.data.length + 4) s.data with
  | some (v, r) => if (r.dropWhile jsonWs).isEmpty then some v else none
  | none => none

/-- JSON string escaping as `JSON.stringify` performs it. -/
def jsonEscapeChar (c : Char) : List Char :=
  if c = '"' then ['\\', '"']
  else if c = '\\' then ['\\', '\\']
  else if c.toNat = 8 then ['\\', 'b']
  else if c = '\t' then ['\\', 't']
  else if c = '\n' then ['\\', 'n']
  else if c.toNat = 12 then ['\\', 'f']
  else if c = '\r' then ['\\', 'r']
  else if c.toNat < 32 then
    ['\\', 'u', '0', '0', hexDigitChar (c.toNat / 16), hexDigitChar (c.toNat % 16)]
  else [c]

/-- A JSON string literal for `s`. -/
def jsonQuote (s : String) : String :=
  String.mk ('"' :: s.data.flatMap jsonEscapeChar ++ ['"'])

/-- `JSON.stringify` of a string-valued record (the shape the key
generator serializes), in insertion order and without whitespace. -/
def jsonStringifyPerms (perms : List (String × String)) : String :=
  String.mk [lbraceChar] ++
    joinSep "," (perms.map fun kv => jsonQuote kv.1 ++ ":" ++ jsonQuote kv.2) ++
    String.mk [rbraceChar]

-- ════════════════════════════════════════════════════════════════════
-- §8  Credential engine (src/auth/api-key.ts)
-- ════════════════════════════════════════════════════════════════════

/-- The key prefix `pgcrud_`. -/
def keyPref : String := "pgcrud_"

/-- `LABEL_PATTERN.test`: `^[a-zA-Z0-9_-]+$` (ASCII). -/
def labelOk (label : String) : Bool :=
  !label.data.isEmpty && label.data.all fun c => c.isAlphanum || c = '_' || c = '-'

/-- `VALID_PERMISSIONS.has`. -/
def validPermStr (perm : String) : Bool :=
  perm = "r" || perm = "w" || perm = "rw"

/-- The per-entry loop of `validatePermissions`. -/
def validatePermissionsList : List (String × String) → Except String Unit
  | [] => .ok ()
  | (schema, perm) :: rest =>
    if schema = "" ∨ jsTrim schema = "" then .error "Schema name must not be empty"
    else if ¬ validPermStr perm then
      .error ("Invalid permission \"" ++ perm ++ "\" for schema \"" ++ schema ++
        "\". Must be \"r\", \"w\", or \"rw\"")
    else validatePermissionsList rest

/-- `validatePermissions` from `src/auth/api-key.ts`. -/
def validatePermissions (permissions : List (String × String)) : Except String Unit :=
  if permissions.isEmpty then .error "Permissions must contain at least one schema entry"
  else validatePermissionsList permissions

/-- The HMAC-SHA-256 hex-digest primitive
`createHmac("sha256", secret).update(data).digest("hex")`, abstracted as
a function of the secret and the data. -/
def HmacFn : Type := String → String → String

/-- `generateApiKey` from `src/auth/api-key.ts`.  JS object truthiness
means an empty permissions record still enters the claims branch (and is
then rejected by `validatePermissions`). -/
def generateApiKey (hmac : HmacFn) (label secret : String)
    (permissions : Option (List (String × String))) : Except String String :=
  if ¬ labelOk label then
    .error "Label must contain only alphanumeric characters, hyphens, and underscores"
  else
    match permissions with
    | some perms =>
      match validatePermissions perms with
      | .error e => .error e
      | .ok _ =>
        let data := label ++ ":" ++ toBase64url (jsonStringifyPerms perms)
        .ok (keyPref ++ data ++ "." ++ hmac secret data)
    | none => .ok (keyPref ++ label ++ "." ++ hmac secret label)

/-- The result of `parseKeyData`: `permissions = none` is the legacy
full-access form. -/
structure ParsedKeyData where
  label : String
  permissions : Option (List (String × String))
deriving DecidableEq, Repr

/-- Last-wins lookup, as `JSON.parse` resolves duplicate object keys. -/
def lastLookup (fields : List (String × JVal)) (k : String) : Option JVal :=
  fields.reverse.lookup k

/-- Fuelled worker for `dedupKeys` (the fuel is ample: each step strictly
shrinks the list). -/
def dedupKeysAux : Nat → List (String × JVal) → List (String × JVal)
  | 0, _ => []
  | _ + 1, [] => []
  | fuel + 1, (k, v) :: rest =>
    (k, (lastLookup rest k).getD v) :: dedupKeysAux fuel (rest.filter fun kv => kv.1 ≠ k)

/-- Collapse duplicate keys of a parsed JSON object into the JS object
it denotes: first-occurrence order, last value wins. -/
def dedupKeys (fields : List (String × JVal)) : List (String × JVal) :=
  dedupKeysAux fields.length fields

/-- Does a JSON value pass `VALID_PERMISSIONS.has`? -/
def validPermJ : JVal → Bool
  | JVal.jstr s => validPermStr s
  | _ => false

/-- Extract the string of a permission value (total; only applied to
values that passed `validPermJ`). -/
def jvalStr : JVal → String
  | JVal.jstr s => s
  | _ => ""

/-- `parseKeyData` from `src/auth/api-key.ts`. -/
def parseKeyData (data : String) : Option ParsedKeyData :=
  match data.data.findIdx? (fun c => c = ':') with
  | none => if labelOk data then some ⟨data, none⟩ else none
  | some i =>
    if i = 0 then (if labelOk data then some ⟨data, none⟩ else none)
    else
      let label := String.mk (data.data.take i)
      if ¬ labelOk label then none
      else
        let permEncoded := String.mk (data.data.drop (i + 1))
        if permEncoded.data.isEmpty then none
        else
          match jsonParse (fromBase64url permEncoded) with
          | some (JVal.jobj fields) =>
            let obj := dedupKeys fields
            if obj.all (fun kv => validPermJ kv.2) then
              some ⟨label, some (obj.map fun kv => (kv.1, jvalStr kv.2))⟩
            else none
          | _ => none

/-- `verifyHmac`: recompute the digest and compare the hex-decoded
buffers (length check then `timingSafeEqual`). -/
def verifyHmac (hmac : HmacFn) (data providedHmac secret : String) : Bool :=
  let expected := hexDecodePairs (hmac secret data).data
  let provided := hexDecodePairs providedHmac.data
  provided.length = expected.length && provided = expected

/-- `VerifyResult` (invalid results carry no label or permissions). -/
structure VerifyResult where
  valid : Bool
  label : Option String
  permissions : Option (Option (List (String × String)))
deriving DecidableEq, Repr

/-- Index of the last `.` in a char list (JS `lastIndexOf`). -/
def lastDotIdx (cs : List Char) : Option Nat :=
  (cs.reverse.findIdx? (fun c => c = '.')).map fun i => cs.length - 1 - i

/-- `verifyApiKey` from `src/auth/api-key.ts`. -/
def verifyApiKey (hmac : HmacFn) (key secret : String) : VerifyResult :=
  if ¬ listIsPref keyPref.data key.data then ⟨false, none, none⟩
  else
    let withoutPre := key.data.drop keyPref.data.length
    match lastDotIdx withoutPre with
    | none => ⟨false, none, none⟩
    | some d =>
      if d = 0 then ⟨false, none, none⟩
      else
        let data := String.mk (withoutPre.take d)
        let providedHmac := String.mk (withoutPre.drop (d + 1))
        if providedHmac.data.isEmpty then ⟨false, none, none⟩
        else
          match parseKeyData data with
          | none => ⟨false, none, none⟩
          | some parsed =>
            if verifyHmac hmac data providedHmac secret then
              ⟨true, some parsed.label, some parsed.permissions⟩
            else ⟨false, none, none⟩

/-- The `permissions` argument of `hasPermission`:
`undefined` (auth disabled), `null` (legacy full-access key), or a
scoped permissions record. -/
inductive PermsArg where
  | unset
  | nullPerm
  | scoped (m : List (String × String))
deriving DecidableEq, Repr

/-- `hasPermission` from `src/auth/api-key.ts`: `perm = permissions[schema]
?? permissions["*"]`; falsy `perm` denies; grant on `"rw"` or the exact
access letter. -/
def hasPermission (permissions : PermsArg) (schema access : String) : Bool :=
  match permissions with
  | .unset => true
  | .nullPerm => true
  | .scoped m =>
    match (match m.lookup schema with | some p => some p | none => m.lookup "*") with
    | none => false
    | some perm => if perm = "" then false else perm = "rw" || perm = access

/-- `hasAnyPermission` from `src/auth/api-key.ts`. -/
def hasAnyPermission (permissions : PermsArg) (schema : String) : Bool :=
  match permissions with
  | .unset => true
  | .nullPerm => true
  | .scoped m =>
    match (match m.lookup schema with | some p => some p | none => m.lookup "*") with
    | none => false
    | some perm => perm ≠ ""

/-- 64 lowercase hex characters: the shape of every real HMAC-SHA-256
hex digest.  Stated of the abstract `HmacFn` as a hypothesis where a
proof needs it. -/
def isLowerHex64 (s : String) : Prop :=
  s.data.length = 64 ∧ ∀ c ∈ s.data, c ∈ "0123456789abcdef".data

instance (s : String) : Decidable (isLowerHex64 s) := by
  unfold isLowerHex64; infer_instance

-- ════════════════════════════════════════════════════════════════════
-- §9  SHA-256 (node:crypto createHash("sha256")) — executable model
-- ════════════════════════════════════════════════════════════════════

/-- Truncate to 32 bits. -/
def w32 (n : Nat) : Nat := n % 4294967296

/-- 32-bit right rotation (arguments below 2^32). -/
def rotr32 (x n : Nat) : Nat := w32 (Nat.lor (x >>> n) (x <<< (32 - n)))

/-- SHA-256 `Ch`. -/
def shaCh (x y z : Nat) : Nat := (x &&& y) ^^^ ((x ^^^ 4294967295) &&& z)

/-- SHA-256 `Maj`. -/
def shaMaj (x y z : Nat) : Nat := (x &&& y) ^^^ (x &&& z) ^^^ (y &&& z)

/-- SHA-256 `Σ0`. -/
def shaBigSigma0 (x : Nat) : Nat := rotr32 x 2 ^^^ rotr32 x 13 ^^^ rotr32 x 22

/-- SHA-256 `Σ1`. -/
def shaBigSigma1 (x : Nat) : Nat := rotr32 x 6 ^^^ rotr32 x 11 ^^^ rotr32 x 25

/-- SHA-256 `σ0`. -/
def shaSmallSigma0 (x : Nat) : Nat := rotr32 x 7 ^^^ rotr32 x 18 ^^^ (x >>> 3)

/-- SHA-256 `σ1`. -/
def shaSmallSigma1 (x : Nat) : Nat := rotr32 x 17 ^^^ rotr32 x 19 ^^^ (x >>> 10)

/-- The 64 SHA-256 round constants. -/
def shaK : List Nat :=
  [ 1116352408, 1899447441, 3049323471, 3921009573, 961987163, 1508970993
  , 2453635748, 2870763221, 3624381080, 310598401, 607225278, 1426881987
  , 1925078388, 2162078206, 2614888103, 3248222580, 3835390401, 4022224774
  , 264347078, 604807628, 770255983, 1249150122, 1555081692, 1996064986
  , 2554220882, 2821834349, 2952996808, 3210313671, 3336571891, 3584528711
  , 113926993, 338241895, 666307205, 773529912, 1294757372, 1396182291
  , 1695183700, 1986661051, 2177026350, 2456956037, 2730485921, 2820302411
  , 3259730800, 3345764771, 3516065817, 3600352804, 4094571909, 275423344
  , 430227734, 506948616, 659060556, 883997877, 958139571, 1322822218
  , 1537002063, 1747873779, 1955562222, 2024104815, 2227730452, 2361852424
  , 2428436474, 2756734187, 3204031479, 3329325298 ]

/-- The SHA-256 working state. -/
structure SHAState where
  a : Nat
  b : Nat
  c : Nat
  d : Nat
  e : Nat
  f : Nat
  g : Nat
  h : Nat
deriving DecidableEq, Repr

/-- The SHA-256 initial hash value. -/
def shaInit : SHAState :=
  ⟨1779033703, 3144134277, 1013904242, 2773480762, 1359893119, 2600822924, 528734635, 1541459225⟩

/-- Big-endian bytes of a 32-bit word. -/
def wordBytes (w : Nat) : List Nat :=
  [w / 16777216 % 256, w / 65536 % 256, w / 256 % 256, w % 256]

/-- Big-endian 32-bit words of a 64-byte block. -/
def blockWords : List Nat → List Nat
  | a :: b :: c :: d :: rest => (a * 16777216 + b * 65536 + c * 256 + d) :: blockWords rest
  | _ => []

/-- Extend the 16 block words to the 64-entry message schedule. -/
def shaExtend : Nat → List Nat → List Nat
  | 0, ws => ws
  | k + 1, ws =>
    let n := ws.length
    let wt := w32 (shaSmallSigma1 (ws.getD (n - 2) 0) + ws.getD (n - 7) 0 +
      shaSmallSigma0 (ws.getD (n - 15) 0) + ws.getD (n - 16) 0)
    shaExtend k (ws ++ [wt])

/-- One SHA-256 round. -/
def shaRound (st : SHAState) (kw : Nat × Nat) : SHAState :=
  let t1 := w32 (st.h + shaBigSigma1 st.e + shaCh st.e st.f st.g + kw.1 + kw.2)
  let t2 := w32 (shaBigSigma0 st.a + shaMaj st.a st.b st.c)
  ⟨w32 (t1 + t2), st.a, st.b, st.c, w32 (st.d + t1), st.e, st.f, st.g⟩

/-- Compress one 64-byte block into the state. -/
def shaCompress (st : SHAState) (block : List Nat) : SHAState :=
  let ws := shaExtend 48 (blockWords block)
  let r := (shaK.zip ws).foldl shaRound st
  ⟨w32 (st.a + r.a), w32 (st.b + r.b), w32 (st.c + r.c), w32 (st.d + r.d),
    w32 (st.e + r.e), w32 (st.f + r.f), w32 (st.g + r.g), w32 (st.h + r.h)⟩

/-- The 8-byte big-endian bit length used by SHA-256 padding. -/
def lenBytes8 (n : Nat) : List Nat :=
  [n / 72057594037927936 % 256, n / 281474976710656 % 256, n / 1099511627776 % 256,
    n / 4294967296 % 256, n / 16777216 % 256, n / 65536 % 256, n / 256 % 256, n % 256]

/-- SHA-256 padding: `0x80`, zeros to 56 mod 64, then the bit length. -/
def shaPad (msg : List Nat) : List Nat :=
  let padZeros := (119 - msg.length % 64) % 64
  msg ++ 128 :: List.replicate padZeros 0 ++ lenBytes8 (8 * msg.length)

/-- Split into 64-byte chunks (fuelled; the fuel is ample). -/
def chunks64 : Nat → List Nat → List (List Nat)
  | 0, _ => []
  | _ + 1, [] => []
  | fuel + 1, l => l.take 64 :: chunks64 fuel (l.drop 64)

/-- The digest bytes of a final state. -/
def stateBytes (st : SHAState) : List Nat :=
  wordBytes st.a ++ wordBytes st.b ++ wordBytes st.c ++ wordBytes st.d ++
    wordBytes st.e ++ wordBytes st.f ++ wordBytes st.g ++ wordBytes st.h

/-- SHA-256 of a byte list. -/
def sha256Bytes (msg : List Nat) : List Nat :=
  let padded := shaPad msg
  stateBytes ((chunks64 padded.length padded).foldl shaCompress shaInit)

/-- Lowercase hex rendering of a byte list (Node `digest("hex")`). -/
def bytesToHex (bs : List Nat) : String :=
  String.mk (bs.flatMap fun b => [hexDigitChar (b / 16), hexDigitChar (b % 16)])

/-- SHA-256 hex digest of a byte list. -/
def sha256Hex (msg : List Nat) : String :=
  bytesToHex (sha256Bytes msg)

-- ════════════════════════════════════════════════════════════════════
-- §10  computeDatabaseHash (src/db/introspector.ts)
-- ════════════════════════════════════════════════════════════════════

/-- Lexicographic code-point comparison of char lists.  This models the
JS `localeCompare` comparators of `computeDatabaseHash`; `localeCompare`
is locale collation, but the theorems below depend only on the
comparator being a total order, not on which one. -/
def charListLe : List Char → List Char → Bool
  | [], _ => true
  | _ :: _, [] => false
  | a :: as_, b :: bs => if a < b then true else if b < a then false else charListLe as_ bs

/-- String comparator used by the canonicalization sorts. -/
def strLeJS (a b : String) : Bool := charListLe a.data b.data

/-- Render a JSON array from already-rendered items. -/
def jarrStr (items : List String) : String :=
  "[" ++ joinSep "," items ++ "]"

/-- Render a JSON object from plain keys and already-rendered values
(insertion order, no whitespace, as `JSON.stringify`). -/
def jobjStr (fields : List (String × String)) : String :=
  String.mk [lbraceChar] ++
    joinSep "," (fields.map fun kv => jsonQuote kv.1 ++ ":" ++ kv.2) ++
    String.mk [rbraceChar]

/-- `JSON.stringify` of `string | null`. -/
def jsonOptStr : Option String → String
  | none => "null"
  | some s => jsonQuote s

/-- `JSON.stringify` of `number | null` (integers). -/
def jsonOptInt : Option Int → String
  | none => "null"
  | some n => toString n

/-- `JSON.stringify` of a boolean. -/
def jsonBool : Bool → String
  | true => "true"
  | false => "false"

/-- The serialized column record inside `computeDatabaseHash`. -/
def columnCanon (c : ColumnInfo) : String :=
  jobjStr
    [ ("name", jsonQuote c.name)
    , ("dataType", jsonQuote c.dataType)
    , ("udtName", jsonQuote c.udtName)
    , ("isNullable", jsonBool c.isNullable)
    , ("hasDefault", jsonBool c.hasDefault)
    , ("defaultValue", jsonOptStr c.defaultValue)
    , ("maxLength", jsonOptInt c.maxLength)
    , ("ordinalPosition", toString c.ordinalPosition) ]

/-- The serialized foreign-key record inside `computeDatabaseHash`. -/
def fkCanon (fk : ForeignKey) : String :=
  jobjStr
    [ ("constraintName", jsonQuote fk.constraintName)
    , ("column", jsonQuote fk.column)
    , ("refSchema", jsonQuote fk.refSchema)
    , ("refTable", jsonQuote fk.refTable)
    , ("refColumn", jsonQuote fk.refColumn) ]

/-- Columns sorted by ordinal position (a stable sort, as JS
`Array.prototype.sort`). -/
def sortColumns (cols : List ColumnInfo) : List ColumnInfo :=
  cols.mergeSort fun a b => decide (a.ordinalPosition ≤ b.ordinalPosition)

/-- The serialized table record inside `computeDatabaseHash`: columns
sorted by ordinal position, PKs sorted lexicographically, FKs sorted by
constraint name. -/
def tableCanon (t : TableInfo) : String :=
  jobjStr
    [ ("schema", jsonQuote t.schema)
    , ("name", jsonQuote t.name)
    , ("fqn", jsonQuote t.fqn)
    , ("columns", jarrStr ((sortColumns t.columns).map columnCanon))
    , ("primaryKeys", jarrStr ((t.primaryKeys.mergeSort strLeJS).map jsonQuote))
    , ("foreignKeys", jarrStr
        (((t.foreignKeys.mergeSort fun a b => strLeJS a.constraintName b.constraintName).map fkCanon))) ]

/-- `JSON.stringify(canonical)`: the schema list (sorted) followed by
the table records sorted by `fqn`. -/
def canonicalString (s : DatabaseSchema) : String :=
  jarrStr (jarrStr ((s.schemas.mergeSort strLeJS).map jsonQuote) ::
    ((s.tables.mergeSort fun a b => strLeJS a.fqn b.fqn).map tableCanon))

/-- `computeDatabaseHash` from `src/db/introspector.ts`: the SHA-256 hex
digest of the canonical serialization (hashed over its UTF-8 bytes). -/
def computeDatabaseHash (s : DatabaseSchema) : String :=
  sha256Hex (utf8Encode (canonicalString s))

/-- A concrete stand-in digest function used to instantiate theorems
that abstract over the HMAC primitive: outputs are 64-character
lowercase hex and differ between the data string `"svc"` and any other
data string. -/
def hmacStub (_secret data : String) : String :=
  if data = "svc" then
    "0000000000000000000000000000000000000000000000000000000000000000"
  else "1111111111111111111111111111111111111111111111111111111111111111"

-- ════════════════════════════════════════════════════════════════════
-- §11  Relations used to state the value-independence claims
-- ════════════════════════════════════════════════════════════════════

/-- Two parameter values of the same shape: same constructor, and equal
lengths for `in` lists.  The SQL text a filter produces depends on its
operand only through this shape. -/
def ValShape : Value → Value → Prop
  | .vNull, .vNull => True
  | .vStr _, .vStr _ => True
  | .vInt _, .vInt _ => True
  | .vBool _, .vBool _ => True
  | .vStrList l1, .vStrList l2 => l1.length = l2.length
  | _, _ => False

/-- Two parsed filters that differ only in operand values. -/
def ParsedEquiv (p q : ParsedFilter) : Prop :=
  p.column = q.column ∧ p.operator = q.operator ∧ ValShape p.value q.value

/-- Two raw filter entries (column ↦ `operator:value` string) that agree
on the column, the parsed operator, the length of an `in` list, and the
null-ness of an `is` operand. -/
def RawFilterEquiv (a b : String × String) : Prop :=
  a.1 = b.1 ∧
  (parseOperatorAndValue a.2).1 = (parseOperatorAndValue b.2).1 ∧
  ((parseOperatorAndValue a.2).1 = "in" →
    (splitOnComma (parseOperatorAndValue a.2).2).length =
      (splitOnComma (parseOperatorAndValue b.2).2).length) ∧
  ((parseOperatorAndValue a.2).1 = "is" →
    (toLowerStr (parseOperatorAndValue a.2).2 = "null" ↔
      toLowerStr (parseOperatorAndValue b.2).2 = "null"))

instance (a b : String × String) : Decidable (RawFilterEquiv a b) := by
  unfold RawFilterEquiv; infer_instance

/-- Lift a relation to `Option`, requiring equal presence. -/
def optionRel (R : α → β → Prop) : Option α → Option β → Prop
  | none, none => True
  | some a, some b => R a b
  | _, _ => False

/-- Two optional search terms of equal truthiness (JS treats the empty
string as falsy). -/
def SearchRel : Option String → Option String → Prop
  | none, none => True
  | some s1, some s2 => (s1 = "" ↔ s2 = "")
  | _, _ => False

/-- Two list intents that differ only in filter values and search term
(same columns, operators, `in`-list lengths, `is` null-ness, and search
truthiness). -/
def OptionsEquiv (o1 o2 : ListOptions) : Prop :=
  o1.page = o2.page ∧ o1.pageSize = o2.pageSize ∧ o1.sortBy = o2.sortBy ∧
  o1.sortOrder = o2.sortOrder ∧ o1.select = o2.select ∧
  o1.searchColumns = o2.searchColumns ∧
  optionRel (List.Forall₂ RawFilterEquiv) o1.filters o2.filters ∧
  SearchRel o1.search o2.search

/-- Relate two `Except` computations: identical errors, or results
related by `R`. -/
def ExceptRel (R : α → β → Prop) : Except String α → Except String β → Prop
  | .error m1, .error m2 => m1 = m2
  | .ok a, .ok b => R a b
  | _, _ => False

/-- Reordering a table's list components while fixing its scalar
fields: the column list, primary-key list, and foreign-key list are
permuted, everything else is unchanged. -/
def tableReorder (t1 t2 : TableInfo) : Prop :=
  t1.schema = t2.schema ∧ t1.name = t2.name ∧ t1.fqn = t2.fqn ∧
  t1.routePath = t2.routePath ∧
  t1.columns.Perm t2.columns ∧ t1.primaryKeys.Perm t2.primaryKeys ∧
  t1.foreignKeys.Perm t2.foreignKeys

/-- The source-representation reorderings the hash claim quantifies
over: permute the schemas list, permute the table map's entries, and
reorder each table's lists. -/
def schemaReorder (s1 s2 : DatabaseSchema) : Prop :=
  s1.schemas.Perm s2.schemas ∧
  ∃ mid, s1.tables.Perm mid ∧ List.Forall₂ tableReorder mid s2.tables

/-- A table's sort key (`fqn`) paired with its canonical serialization. -/
def tableKeyCanon (t : TableInfo) : String × String := (t.fqn, tableCanon t)

/-- A two-column table used to instantiate the hash-invariance theorem. -/
def c9t1 : TableInfo :=
  { schema := "public", name := "users"
  , columns :=
      [ ⟨"id", "integer", "int4", false, true, some "nextval('users_id_seq')", none, 1⟩
      , ⟨"email", "text", "text", false, false, none, some 255, 2⟩ ]
  , primaryKeys := ["id"], foreignKeys := [], fqn := "public.users"
  , routePath := "users" }

/-- A composite-PK table with two foreign keys, used alongside `c9t1`. -/
def c9t2 : TableInfo :=
  { schema := "public", name := "orders"
  , columns :=
      [ ⟨"a", "integer", "int4", false, false, none, none, 1⟩
      , ⟨"b", "integer", "int4", false, false, none, none, 2⟩ ]
  , primaryKeys := ["a", "b"]
  , foreignKeys :=
      [ ⟨"fk_a", "a", "public", "users", "id"⟩
      , ⟨"fk_b", "b", "public", "users", "id"⟩ ]
  , fqn := "public.orders", routePath := "orders" }

/-- `c9t1` with its column list reversed. -/
def c9t1r : TableInfo := { c9t1 with columns := c9t1.columns.reverse }

/-- `c9t2` with its primary-key and foreign-key lists reversed. -/
def c9t2r : TableInfo :=
  { c9t2 with primaryKeys := c9t2.primaryKeys.reverse
            , foreignKeys := c9t2.foreignKeys.reverse }

/-- A concrete two-table schema. -/
def c9s1 : DatabaseSchema := ⟨[c9t1, c9t2], ["public", "app"]⟩

/-- `c9s1` with every list reordered: schemas swapped, tables swapped,
and the per-table lists reversed. -/
def c9s2 : DatabaseSchema := ⟨[c9t2r, c9t1r], ["app", "public"]⟩

-- ════════════════════════════════════════════════════════════════════
-- §12  Theorems
-- ════════════════════════════════════════════════════════════════════

/-- C5: `hasPermission` grants everything for `null`/`undefined`
permissions; a scoped map consults the exact schema entry, falls back to
`*` only when the exact entry is absent, grants exactly on `"rw"` or the
requested access letter, and denies when neither entry exists. -/
theorem c5_permission_semantics (m : List (String × String)) (schema access : String)
    (haccess : access = "r" ∨ access = "w") :
    hasPermission PermsArg.unset schema access = true ∧
    hasPermission PermsArg.nullPerm schema access = true ∧
    (hasPermission (PermsArg.scoped m) schema access = true ↔
      ∃ perm, (m.lookup schema = some perm ∨
          (m.lookup schema = none ∧ m.lookup "*" = some perm)) ∧
        (perm = "rw" ∨ perm = access)) := by
  refine ⟨rfl, rfl, ?_⟩
  have hne : access ≠ "" := by rcases haccess with h | h <;> simp [h]
  cases h1 : m.lookup schema with
  | some perm =>
    constructor
    · intro hg
      by_cases hp : perm = ""
      · rw [hp] at h1; simp [hasPermission, h1] at hg
      · refine ⟨perm, Or.inl rfl, ?_⟩
        simp [hasPermission, h1, hp] at hg
        exact hg
    · rintro ⟨perm2, hsel, hgr⟩
      have hpe : perm2 = perm := by
        rcases hsel with h | ⟨hn, _⟩
        · exact (Option.some.inj h).symm
        · simp at hn
      have hp : perm2 ≠ "" := by
        rcases hgr with h | h
        · rw [h]; decide
        · rw [h]; exact hne
      rw [hpe] at hp hgr
      simp [hasPermission, h1, hp]
      rcases hgr with h | h
      · exact Or.inl h
      · exact Or.inr h
  | none =>
    cases h2 : m.lookup "*" with
    | some perm =>
      constructor
      · intro hg
        by_cases hp : perm = ""
        · rw [hp] at h2; simp [hasPermission, h1, h2] at hg
        · refine ⟨perm, Or.inr ⟨rfl, rfl⟩, ?_⟩
          simp [hasPermission, h1, h2, hp] at hg
          exact hg
      · rintro ⟨perm2, hsel, hgr⟩
        have hpe : perm2 = perm := by
          rcases hsel with h | ⟨_, h⟩
          · simp at h
          · exact (Option.some.inj h).symm
        have hp : perm2 ≠ "" := by
          rcases hgr with h | h
          · rw [h]; decide
          · rw [h]; exact hne
        rw [hpe] at hp hgr
        simp [hasPermission, h1, h2, hp]
        rcases hgr with h | h
        · exact Or.inl h
        · exact Or.inr h
    | none =>
      simp [hasPermission, h1, h2]

/-- Witness for C5 at a concrete scoped map. -/
theorem c5_permission_semantics_witness :
    hasPermission (PermsArg.scoped [("public", "r"), ("*", "rw")]) "public" "r" = true ∧
    hasPermission (PermsArg.scoped [("public", "r"), ("*", "rw")]) "reporting" "w" = true := by
  constructor
  · exact (c5_permission_semantics [("public", "r"), ("*", "rw")] "public" "r"
      (Or.inl rfl)).2.2.mpr ⟨"r", Or.inl (by decide), Or.inr rfl⟩
  · exact (c5_permission_semantics [("public", "r"), ("*", "rw")] "reporting" "w"
      (Or.inr rfl)).2.2.mpr ⟨"rw", Or.inr ⟨by decide, by decide⟩, Or.inl rfl⟩

/-- C6 (counterexample): with the documented configuration defaults
(`defaultPageSize = 50`, `maxPageSize = 1000`), a requested `pageSize` of
`0` is less than 1, yet the bound LIMIT value is 50, not 1: JS `||`
treats `0` as absent and substitutes the default page size. -/
theorem c6_counterexample :
    buildSelectQuery ⟨50, 1000⟩ usersTable { pageSize := some 0 } =
      Except.ok ⟨"SELECT * FROM \"public\".\"users\" ORDER BY \"id\" ASC LIMIT $1 OFFSET $2",
        [Value.vInt 50, Value.vInt 0]⟩ ∧
    (0 : Int) < 1 ∧ (50 : Int) ≠ 1 := by
  refine ⟨?_, by decide, by decide⟩
  rfl

/-- C6 (amended): `page < 1` gives OFFSET 0; `pageSize > max` gives
LIMIT `max`; a negative `pageSize` gives LIMIT 1, while `pageSize = 0`
is treated as absent and gives the (clamped) default page size; and
OFFSET always equals `(clamped page − 1) × clamped pageSize`. -/
theorem c6_pagination_clamping (cfg : Config) (table : TableInfo) (opts : ListOptions)
    (r : QueryResult) (hdef : 1 ≤ cfg.defaultPageSize) (hmax : cfg.defaultPageSize ≤ cfg.maxPageSize)
    (hok : buildSelectQuery cfg table opts = Except.ok r) :
    ∃ ps off init, r.values = init ++ [Value.vInt ps, Value.vInt off] ∧
      off = (max 1 (jsOrInt opts.page 1) - 1) * ps ∧
      (∀ p, opts.page = some p → p < 1 → off = 0) ∧
      (∀ q, opts.pageSize = some q → cfg.maxPageSize < q → ps = cfg.maxPageSize) ∧
      (∀ q, opts.pageSize = some q → q < 0 → ps = 1) ∧
      (opts.pageSize = some 0 → ps = cfg.defaultPageSize) := by
  unfold buildSelectQuery at hok
  cases h1 : getColumnNames table opts.select <;> rw [h1] at hok
  case error e => simp at hok
  case ok cols =>
    cases h2 : buildWhereClauses table opts 1 <;> rw [h2] at hok
    case error e => simp at hok
    case ok wr =>
      simp only [Except.ok.injEq] at hok
      refine ⟨min cfg.maxPageSize (max 1 (jsOrInt opts.pageSize cfg.defaultPageSize)),
        (max 1 (jsOrInt opts.page 1) - 1) *
          min cfg.maxPageSize (max 1 (jsOrInt opts.pageSize cfg.defaultPageSize)),
        wr.values, ?_, rfl, ?_, ?_, ?_, ?_⟩
      · rw [← hok]
      · intro p hp hlt
        rw [hp]
        have h : max 1 (jsOrInt (some p) 1) = 1 := by
          simp only [jsOrInt, max_def]
          split_ifs <;> omega
        rw [h]
        simp
      · intro q hq hlt
        rw [hq]
        simp only [jsOrInt, min_def, max_def]
        split_ifs <;> omega
      · intro q hq hlt
        rw [hq]
        simp only [jsOrInt, min_def, max_def]
        split_ifs <;> omega
      · intro h0
        rw [h0]
        simp only [jsOrInt, min_def, max_def]
        split_ifs <;> omega

/-- Witness for C6 at concrete inputs (page −3, pageSize 5000 under the
default configuration). -/
theorem c6_pagination_clamping_witness :
    ∃ ps off init, ([Value.vStr "Alice", Value.vInt 1000, Value.vInt 0] : List Value) =
      init ++ [Value.vInt ps, Value.vInt off] ∧
      off = (max 1 (jsOrInt (some (-3)) 1) - 1) * ps := by
  obtain ⟨ps, off, init, hv, hoff, _, _, _, _⟩ :=
    c6_pagination_clamping ⟨50, 1000⟩ usersTable
      { page := some (-3), pageSize := some 5000, filters := some [("name", "eq:Alice")] }
      ⟨"SELECT * FROM \"public\".\"users\" WHERE \"name\" = $1 ORDER BY \"id\" ASC LIMIT $2 OFFSET $3",
        [Value.vStr "Alice", Value.vInt 1000, Value.vInt 0]⟩
      (by decide) (by decide) (by rfl)
  exact ⟨ps, off, init, hv, hoff⟩

/-- C7 (counterexample): for a single-column primary key the key
segment is not split at commas and never fails: `GET /api/users/1,2`
parses to the whole segment `"1,2"` as the `id` value instead of failing
with a 400 ValidationFailed. -/
theorem c7_counterexample :
    usersTable.primaryKeys.length = 1 ∧
    buildPkParams usersTable "1,2" = some [("id", "1,2")] ∧
    parsePkOrReply usersTable "1,2" = Except.ok [("id", "1,2")] := by
  refine ⟨rfl, rfl, rfl⟩

/-- `buildPkParams` on a composite primary key reduces to the
arity/emptiness check followed by the ordered zip. -/
theorem buildPkParams_composite (table : TableInfo) (id : String) (a b : String)
    (r2 : List String) (hpks : table.primaryKeys = a :: b :: r2) :
    buildPkParams table id =
      if (splitOnComma id).length ≠ (a :: b :: r2).length ∨
          (splitOnComma id).any (fun p => jsTrim p = "") = true then none
      else some ((a :: b :: r2).zip (splitOnComma id)) := by
  unfold buildPkParams
  rw [hpks]

/-- C7 (amended): a single-column primary key takes the whole key
segment verbatim (no splitting, no emptiness check); only for arity
`n ≥ 2` is the segment split into exactly `n` comma-separated non-empty
parts mapped to the PK columns in order, any violation producing the 400
reply whose message states the expected arity. -/
theorem c7_pk_arity (table : TableInfo) (id : String) :
    (∀ pk, table.primaryKeys = [pk] → parsePkOrReply table id = Except.ok [(pk, id)]) ∧
    (2 ≤ table.primaryKeys.length →
      ((parsePkOrReply table id =
          Except.error ⟨400, "Bad request", pkArityMessage table⟩) ↔
        ((splitOnComma id).length ≠ table.primaryKeys.length ∨
          (splitOnComma id).any (fun p => jsTrim p = "") = true)) ∧
      (∀ pkv, parsePkOrReply table id = Except.ok pkv →
        pkv = table.primaryKeys.zip (splitOnComma id))) ∧
    pkArityMessage table = "Composite primary key expects " ++
      toString table.primaryKeys.length ++ " values (" ++
      joinSep "," table.primaryKeys ++ ")" := by
  refine ⟨?_, ?_, rfl⟩
  · intro pk hpk
    simp [parsePkOrReply, buildPkParams, hpk]
  · intro hlen
    obtain ⟨a, b, r2, hpks⟩ : ∃ a b r2, table.primaryKeys = a :: b :: r2 := by
      cases h : table.primaryKeys with
      | nil => rw [h] at hlen; simp at hlen
      | cons a rest =>
        cases rest with
        | nil => rw [h] at hlen; simp at hlen
        | cons b r2 => exact ⟨a, b, r2, rfl⟩
    have hbp := buildPkParams_composite table id a b r2 hpks
    rw [hpks]
    constructor
    · constructor
      · intro herr
        rw [parsePkOrReply, hbp] at herr
        by_cases hc : ((splitOnComma id).length ≠ (a :: b :: r2).length ∨
            (splitOnComma id).any (fun p => jsTrim p = "") = true)
        · exact hc
        · rw [if_neg hc] at herr
          simp at herr
      · intro hviol
        rw [parsePkOrReply, hbp, if_pos hviol]
    · intro pkv hok
      rw [parsePkOrReply, hbp] at hok
      by_cases hc : ((splitOnComma id).length ≠ (a :: b :: r2).length ∨
          (splitOnComma id).any (fun p => jsTrim p = "") = true)
      · rw [if_pos hc] at hok
        simp at hok
      · rw [if_neg hc] at hok
        simp only [Except.ok.injEq] at hok
        exact hok.symm

/-- Witness for C7 at concrete inputs: the composite-PK fixture with a
one-part segment produces the arity error, and with a two-part segment
the ordered mapping. -/
theorem c7_pk_arity_witness :
    parsePkOrReply compositePkTable "42" =
      Except.error ⟨400, "Bad request", pkArityMessage compositePkTable⟩ ∧
    parsePkOrReply usersTable "7" = Except.ok [("id", "7")] := by
  constructor
  · exact ((c7_pk_arity compositePkTable "42").2.1 (by decide)).1.mpr (by decide)
  · exact (c7_pk_arity usersTable "7").1 "id" rfl

/-- C2: deleting from an entity with a `deleted_at` column generates an
UPDATE setting `"deleted_at" = NOW()` (plus `"updated_at" = NOW()` when
that column exists) over the PK WHERE with `RETURNING *`; an entity
without `deleted_at` generates a DELETE; and the delete response
envelope's soft-delete flag equals `hasSoftDelete`. -/
theorem c2_soft_delete_branching (table : TableInfo) (pkValues : List (String × Value)) :
    (hasSoftDelete table = true →
      buildDeleteQueryFull table pkValues =
        ⟨"UPDATE " ++ table.fqn ++ " SET " ++
          ("\"deleted_at\" = NOW()" ++
            (if hasUpdatedAt table then ", \"updated_at\" = NOW()" else "")) ++
          " WHERE " ++ joinSep " AND " (pkWhereClauses table.primaryKeys pkValues 1).1 ++
          " RETURNING *",
          (pkWhereClauses table.primaryKeys pkValues 1).2⟩) ∧
    (hasSoftDelete table = false →
      buildDeleteQueryFull table pkValues =
        ⟨"DELETE FROM " ++ table.fqn ++ " WHERE " ++
          joinSep " AND " (pkWhereClauses table.primaryKeys pkValues 1).1 ++
          " RETURNING *",
          (pkWhereClauses table.primaryKeys pkValues 1).2⟩) ∧
    (deleteResponse table).softDelete = hasSoftDelete table := by
  refine ⟨?_, ?_, rfl⟩
  · intro h
    unfold buildDeleteQueryFull
    rw [h]
    simp
  · intro h
    unfold buildDeleteQueryFull
    rw [h]
    simp

/-- Witness for C2: the soft-delete fixture produces the spec's scenario-3
UPDATE; the `users` fixture produces a hard DELETE. -/
theorem c2_soft_delete_branching_witness :
    buildDeleteQueryFull postsTable [("id", Value.vStr "5")] =
      ⟨"UPDATE \"public\".\"posts\" SET \"deleted_at\" = NOW(), \"updated_at\" = NOW() WHERE \"id\" = $1 RETURNING *",
        [Value.vStr "5"]⟩ ∧
    buildDeleteQueryFull usersTable [("id", Value.vStr "5")] =
      ⟨"DELETE FROM \"public\".\"users\" WHERE \"id\" = $1 RETURNING *", [Value.vStr "5"]⟩ := by
  constructor
  · rw [(c2_soft_delete_branching postsTable [("id", Value.vStr "5")]).1 (by decide)]
    rfl
  · rw [(c2_soft_delete_branching usersTable [("id", Value.vStr "5")]).2.1 (by decide)]
    rfl

/-- C3: with an `updated_at` column and a payload omitting it, the
insert's column list gains `updated_at` with the literal `NOW()` in the
VALUES row (consuming no parameter) and the update's SET list gains
`"updated_at" = NOW()`; a payload supplying `updated_at` binds the
provided value as an ordinary parameter and no `NOW()` literal is
appended. -/
theorem c3_auto_updated_at (table : TableInfo) (pkValues data : List (String × Value)) :
    (∀ vc, vc = table.columns.filter (fun c => (jsLookup data c.name).isSome) → vc ≠ [] →
      (hasUpdatedAt table = true → jsLookup data "updated_at" = none →
        buildInsertQueryAuto table data = Except.ok
          ⟨"INSERT INTO " ++ table.fqn ++ " (" ++
            joinSep ", " (vc.map (fun c => quoteIdent c.name) ++ [quoteIdent "updated_at"]) ++
            ") VALUES (" ++
            joinSep ", " ((List.range vc.length).map (fun i => "$" ++ toString (i + 1)) ++ ["NOW()"]) ++
            ") RETURNING *",
            vc.map fun c => (jsLookup data c.name).getD Value.vNull⟩) ∧
      (∀ v, jsLookup data "updated_at" = some v →
        buildInsertQueryAuto table data = Except.ok
          ⟨"INSERT INTO " ++ table.fqn ++ " (" ++
            joinSep ", " (vc.map fun c => quoteIdent c.name) ++
            ") VALUES (" ++
            joinSep ", " ((List.range vc.length).map fun i => "$" ++ toString (i + 1)) ++
            ") RETURNING *",
            vc.map fun c => (jsLookup data c.name).getD Value.vNull⟩ ∧
          (hasUpdatedAt table = true →
            ∃ r, buildInsertQueryAuto table data = Except.ok r ∧ v ∈ r.values))) ∧
    (∀ uc, uc = table.columns.filter
        (fun c => (jsLookup data c.name).isSome && !(table.primaryKeys.contains c.name)) →
      uc ≠ [] →
      (hasUpdatedAt table = true → jsLookup data "updated_at" = none →
        buildUpdateQueryAuto table pkValues data = Except.ok
          ⟨"UPDATE " ++ table.fqn ++ " SET " ++
            joinSep ", " ((setClauses uc data 1).1 ++ ["\"updated_at\" = NOW()"]) ++
            " WHERE " ++
            joinSep " AND " (pkWhereClauses table.primaryKeys pkValues (uc.length + 1)).1 ++
            " RETURNING *",
            (setClauses uc data 1).2 ++
              (pkWhereClauses table.primaryKeys pkValues (uc.length + 1)).2⟩) ∧
      (jsLookup data "updated_at" ≠ none →
        buildUpdateQueryAuto table pkValues data = Except.ok
          ⟨"UPDATE " ++ table.fqn ++ " SET " ++ joinSep ", " (setClauses uc data 1).1 ++
            " WHERE " ++
            joinSep " AND " (pkWhereClauses table.primaryKeys pkValues (uc.length + 1)).1 ++
            " RETURNING *",
            (setClauses uc data 1).2 ++
              (pkWhereClauses table.primaryKeys pkValues (uc.length + 1)).2⟩)) := by
  constructor
  · intro vc hvc hne
    subst hvc
    constructor
    · intro hu hnone
      unfold buildInsertQueryAuto
      rw [if_neg (by simpa using hne)]
      simp only [hu, hnone, Option.isNone_none, Bool.and_self, if_pos]
    · intro v hv
      have hauto : (hasUpdatedAt table && (jsLookup data "updated_at").isNone) = false := by
        rw [hv]
        simp
      have hq : buildInsertQueryAuto table data = Except.ok
          ⟨"INSERT INTO " ++ table.fqn ++ " (" ++
            joinSep ", " ((table.columns.filter fun c => (jsLookup data c.name).isSome).map
              fun c => quoteIdent c.name) ++
            ") VALUES (" ++
            joinSep ", " ((List.range (table.columns.filter
              fun c => (jsLookup data c.name).isSome).length).map
                fun i => "$" ++ toString (i + 1)) ++
            ") RETURNING *",
            (table.columns.filter fun c => (jsLookup data c.name).isSome).map
              fun c => (jsLookup data c.name).getD Value.vNull⟩ := by
        unfold buildInsertQueryAuto
        rw [if_neg (by simpa using hne)]
        rw [hauto]
        simp
      constructor
      · exact hq
      · intro hu
        refine ⟨_, hq, ?_⟩
        show v ∈ (table.columns.filter fun c => (jsLookup data c.name).isSome).map
          fun c => (jsLookup data c.name).getD Value.vNull
        unfold hasUpdatedAt at hu
        rw [List.any_eq_true] at hu
        obtain ⟨col, hmem, hname⟩ := hu
        rw [List.mem_map]
        refine ⟨col, ?_, ?_⟩
        · rw [List.mem_filter]
          refine ⟨hmem, ?_⟩
          rw [(by simpa using hname : col.name = "updated_at"), hv]
          rfl
        · rw [(by simpa using hname : col.name = "updated_at"), hv]
          rfl
  · intro uc huc hne
    subst huc
    constructor
    · intro hu hnone
      unfold buildUpdateQueryAuto
      rw [if_neg (by simpa using hne)]
      simp only [hu, hnone, Option.isNone_none, Bool.and_self, if_pos]
    · intro hsome
      have hauto : (hasUpdatedAt table && (jsLookup data "updated_at").isNone) = false := by
        cases h : jsLookup data "updated_at" with
        | none => exact absurd h hsome
        | some v => simp [h]
      unfold buildUpdateQueryAuto
      rw [if_neg (by simpa using hne)]
      rw [hauto]
      simp

/-- Witness for C3 on the soft-delete fixture: insert and update without
`updated_at` gain the `NOW()` literal; supplying `updated_at` binds it as
`$2` with no literal. -/
theorem c3_auto_updated_at_witness :
    buildInsertQueryAuto postsTable [("user_id", Value.vInt 1), ("title", Value.vStr "Hello")] =
      Except.ok ⟨"INSERT INTO \"public\".\"posts\" (\"user_id\", \"title\", \"updated_at\") VALUES ($1, $2, NOW()) RETURNING *",
        [Value.vInt 1, Value.vStr "Hello"]⟩ ∧
    buildUpdateQueryAuto postsTable [("id", Value.vStr "10")]
        [("title", Value.vStr "T"), ("updated_at", Value.vStr "2024-01-01T00:00:00Z")] =
      Except.ok ⟨"UPDATE \"public\".\"posts\" SET \"title\" = $1, \"updated_at\" = $2 WHERE \"id\" = $3 RETURNING *",
        [Value.vStr "T", Value.vStr "2024-01-01T00:00:00Z", Value.vStr "10"]⟩ := by
  constructor
  · rw [((c3_auto_updated_at postsTable [] [("user_id", Value.vInt 1), ("title", Value.vStr "Hello")]).1
      _ rfl (by decide)).1 (by decide) (by decide)]
    rfl
  · rw [((c3_auto_updated_at postsTable [("id", Value.vStr "10")]
      [("title", Value.vStr "T"), ("updated_at", Value.vStr "2024-01-01T00:00:00Z")]).2
      _ rfl (by decide)).2 (by decide)]
    rfl

/-- C8: whenever the list query builds, the count query builds over the
same WHERE clause text — the count text is the COUNT projection plus that
clause, the list text is its projection plus the same clause (followed by
ORDER BY/LIMIT material) — and the count parameter vector equals the list
parameter vector with the trailing LIMIT and OFFSET values removed. -/
theorem c8_count_list_where_parity (cfg : Config) (table : TableInfo) (opts : ListOptions)
    (r : QueryResult) (hok : buildSelectQuery cfg table opts = Except.ok r) :
    ∃ c wr cols tail,
      buildCountQuery table opts = Except.ok c ∧
      buildWhereClauses table opts 1 = Except.ok wr ∧
      c.text = "SELECT COUNT(*) AS total FROM " ++ table.fqn ++ wr.clause ∧
      r.text = "SELECT " ++ cols ++ " FROM " ++ table.fqn ++ (wr.clause ++ tail) ∧
      c.values = wr.values ∧
      c.values = r.values.dropLast.dropLast := by
  unfold buildSelectQuery at hok
  cases h1 : getColumnNames table opts.select <;> rw [h1] at hok
  case error e => simp at hok
  case ok cols =>
    cases h2 : buildWhereClauses table opts 1 <;> rw [h2] at hok
    case error e => simp at hok
    case ok wr =>
      simp only [Except.ok.injEq] at hok
      have hcount : buildCountQuery table opts =
          Except.ok ⟨"SELECT COUNT(*) AS total FROM " ++ table.fqn ++ wr.clause, wr.values⟩ := by
        unfold buildCountQuery
        rw [h2]
      have hvals : r.values = wr.values ++
          [Value.vInt (min cfg.maxPageSize (max 1 (jsOrInt opts.pageSize cfg.defaultPageSize))),
            Value.vInt ((max 1 (jsOrInt opts.page 1) - 1) *
              min cfg.maxPageSize (max 1 (jsOrInt opts.pageSize cfg.defaultPageSize)))] := by
        rw [← hok]
      have htext : ∃ tail, r.text =
          "SELECT " ++ cols ++ " FROM " ++ table.fqn ++ (wr.clause ++ tail) := by
        rw [← hok]
        cases hs : (match opts.sortBy with
          | some s => if s ≠ "" ∧ isValidColumn table s then some s else fallbackSortCol table
          | none => fallbackSortCol table) with
        | some sc =>
          refine ⟨" ORDER BY " ++ quoteIdent sc ++ " " ++
            (if opts.sortOrder = some "desc" then "DESC" else "ASC") ++
            " LIMIT $" ++ toString wr.nextParamIdx ++ " OFFSET $" ++
            toString (wr.nextParamIdx + 1), ?_⟩
          simp only [String.append_assoc]
        | none =>
          refine ⟨" LIMIT $" ++ toString wr.nextParamIdx ++ " OFFSET $" ++
            toString (wr.nextParamIdx + 1), ?_⟩
          simp only [String.append_assoc]
      obtain ⟨tail, htail⟩ := htext
      refine ⟨_, wr, cols, tail, hcount, rfl, rfl, htail, rfl, ?_⟩
      rw [hvals]
      have h : wr.values ++ [Value.vInt (min cfg.maxPageSize
            (max 1 (jsOrInt opts.pageSize cfg.defaultPageSize))),
          Value.vInt ((max 1 (jsOrInt opts.page 1) - 1) *
            min cfg.maxPageSize (max 1 (jsOrInt opts.pageSize cfg.defaultPageSize)))] =
          (wr.values ++ [Value.vInt (min cfg.maxPageSize
            (max 1 (jsOrInt opts.pageSize cfg.defaultPageSize)))]) ++
          [Value.vInt ((max 1 (jsOrInt opts.page 1) - 1) *
            min cfg.maxPageSize (max 1 (jsOrInt opts.pageSize cfg.defaultPageSize)))] := by
        simp
      rw [h, List.dropLast_concat, List.dropLast_concat]

/-- Witness for C8 at a concrete filter-plus-search intent over the
`users` fixture. -/
theorem c8_count_list_where_parity_witness :
    ∃ c wr cols tail,
      buildCountQuery usersTable
        { filters := some [("name", "eq:Alice")], search := some "john",
          searchColumns := some ["name", "email"] } = Except.ok c ∧
      buildWhereClauses usersTable
        { filters := some [("name", "eq:Alice")], search := some "john",
          searchColumns := some ["name", "email"] } 1 = Except.ok wr ∧
      c.text = "SELECT COUNT(*) AS total FROM " ++ usersTable.fqn ++ wr.clause ∧
      ("SELECT * FROM \"public\".\"users\" WHERE \"name\" = $1 AND (\"name\"::text ILIKE $2 OR \"email\"::text ILIKE $2) ORDER BY \"id\" ASC LIMIT $3 OFFSET $4" : String) =
        "SELECT " ++ cols ++ " FROM " ++ usersTable.fqn ++ (wr.clause ++ tail) ∧
      c.values = wr.values ∧
      c.values = ([Value.vStr "Alice", Value.vStr "%john%", Value.vInt 50,
        Value.vInt 0] : List Value).dropLast.dropLast := by
  obtain ⟨c, wr, cols, tail, h1, h2, h3, h4, h5, h6⟩ :=
    c8_count_list_where_parity ⟨50, 1000⟩ usersTable
      { filters := some [("name", "eq:Alice")], search := some "john",
        searchColumns := some ["name", "email"] }
      ⟨"SELECT * FROM \"public\".\"users\" WHERE \"name\" = $1 AND (\"name\"::text ILIKE $2 OR \"email\"::text ILIKE $2) ORDER BY \"id\" ASC LIMIT $3 OFFSET $4",
        [Value.vStr "Alice", Value.vStr "%john%", Value.vInt 50, Value.vInt 0]⟩
      (by rfl)
  exact ⟨c, wr, cols, tail, h1, h2, h3, h4, h5, h6⟩

/-- Operand coercion sends equally-shaped raw operands (same operator,
equal `in` lengths, agreeing `is` null-ness) to equally-shaped values or
to identical errors. -/
theorem coerceFilterValue_rel (v1 v2 : String)
    (hop : (parseOperatorAndValue v1).1 = (parseOperatorAndValue v2).1)
    (hin : (parseOperatorAndValue v1).1 = "in" →
      (splitOnComma (parseOperatorAndValue v1).2).length =
        (splitOnComma (parseOperatorAndValue v2).2).length)
    (his : (parseOperatorAndValue v1).1 = "is" →
      (toLowerStr (parseOperatorAndValue v1).2 = "null" ↔
        toLowerStr (parseOperatorAndValue v2).2 = "null")) :
    ExceptRel ValShape
      (coerceFilterValue (parseOperatorAndValue v1).1 (parseOperatorAndValue v1).2)
      (coerceFilterValue (parseOperatorAndValue v2).1 (parseOperatorAndValue v2).2) := by
  rw [← hop]
  unfold coerceFilterValue
  by_cases h1 : (parseOperatorAndValue v1).1 = "is"
  · rw [if_pos h1, if_pos h1]
    by_cases hn : toLowerStr (parseOperatorAndValue v1).2 = "null"
    · rw [if_pos hn, if_pos (((his h1).mp hn))]
      simp [ExceptRel, ValShape]
    · rw [if_neg hn, if_neg (fun h => hn ((his h1).mpr h))]
      simp [ExceptRel, ValShape]
  · rw [if_neg h1, if_neg h1]
    by_cases h2 : (parseOperatorAndValue v1).1 = "in"
    · rw [if_pos h2, if_pos h2]
      have hlen := hin h2
      by_cases hc : (splitOnComma (parseOperatorAndValue v1).2).length > 100
      · rw [if_pos hc, if_pos (hlen ▸ hc)]
        simp [ExceptRel, hlen]
      · rw [if_neg hc, if_neg (hlen ▸ hc)]
        simp [ExceptRel, ValShape, hlen]
    · rw [if_neg h2, if_neg h2]
      simp [ExceptRel, ValShape]

/-- Filter parsing sends pointwise-equivalent raw filter records to
pointwise-equivalent parsed filters or to identical errors. -/
theorem parseFiltersFromObject_rel (table : TableInfo) :
    ∀ fs1 fs2, List.Forall₂ RawFilterEquiv fs1 fs2 →
      ExceptRel (List.Forall₂ ParsedEquiv)
        (parseFiltersFromObject fs1 table) (parseFiltersFromObject fs2 table) := by
  intro fs1 fs2 hrel
  induction hrel with
  | nil => simp [parseFiltersFromObject, ExceptRel]
  | cons hab hrest ih =>
    rename_i a b l1 l2
    obtain ⟨hcol, hop, hin, his⟩ := hab
    unfold parseFiltersFromObject
    obtain ⟨ca, va⟩ := a
    obtain ⟨cb, vb⟩ := b
    simp only at hcol hop hin his
    rw [← hcol]
    cases hvc : validateFilterColumn ca table with
    | error e => simp [ExceptRel]
    | ok u =>
      dsimp only
      have hco := coerceFilterValue_rel va vb hop hin his
      cases hca : coerceFilterValue (parseOperatorAndValue va).1 (parseOperatorAndValue va).2 with
      | error e =>
        cases hcb : coerceFilterValue (parseOperatorAndValue vb).1 (parseOperatorAndValue vb).2 with
        | error e2 =>
          rw [hca, hcb] at hco
          simp only [ExceptRel] at hco
          simp [ExceptRel, hco]
        | ok w =>
          rw [hca, hcb] at hco
          simp [ExceptRel] at hco
      | ok w1 =>
        cases hcb : coerceFilterValue (parseOperatorAndValue vb).1 (parseOperatorAndValue vb).2 with
        | error e2 =>
          rw [hca, hcb] at hco
          simp [ExceptRel] at hco
        | ok w2 =>
          rw [hca, hcb] at hco
          simp only [ExceptRel] at hco
          cases hr1 : parseFiltersFromObject l1 table with
          | error e =>
            cases hr2 : parseFiltersFromObject l2 table with
            | error e2 =>
              rw [hr1, hr2] at ih
              simp only [ExceptRel] at ih
              simp [ExceptRel, ih]
            | ok o2 =>
              rw [hr1, hr2] at ih
              simp [ExceptRel] at ih
          | ok o1 =>
            cases hr2 : parseFiltersFromObject l2 table with
            | error e2 =>
              rw [hr1, hr2] at ih
              simp [ExceptRel] at ih
            | ok o2 =>
              rw [hr1, hr2] at ih
              simp only [ExceptRel] at ih
              simp only [ExceptRel]
              exact List.Forall₂.cons ⟨rfl, hop, hco⟩ ih

/-- A single filter clause depends on the operand only through its
shape: equivalent parsed filters give the same clause text and the same
next parameter index. -/
theorem filterClause_rel (f1 f2 : ParsedFilter) (hrel : ParsedEquiv f1 f2) (idx : Nat) :
    (filterClause f1 idx).1 = (filterClause f2 idx).1 ∧
    (filterClause f1 idx).2.2 = (filterClause f2 idx).2.2 := by
  obtain ⟨hcol, hop, hval⟩ := hrel
  unfold filterClause
  rw [← hcol, ← hop]
  by_cases h1 : f1.operator = "is"
  · rw [if_pos h1, if_pos h1]
    cases hv1 : f1.value <;> cases hv2 : f2.value <;>
      rw [hv1, hv2] at hval <;> simp [ValShape] at hval <;> simp [ValShape]
  · rw [if_neg h1, if_neg h1]
    by_cases h2 : f1.operator = "in"
    · rw [if_pos h2, if_pos h2]
      cases hv1 : f1.value <;> cases hv2 : f2.value <;>
        rw [hv1, hv2] at hval <;> simp [ValShape] at hval <;> simp [ValShape, hval]
    · rw [if_neg h2, if_neg h2]
      simp

/-- The filter loop preserves clause texts and the next parameter index
across equivalent filter lists. -/
theorem filterFold_rel :
    ∀ l1 l2, List.Forall₂ ParsedEquiv l1 l2 → ∀ idx,
      (filterFold l1 idx).1 = (filterFold l2 idx).1 ∧
      (filterFold l1 idx).2.2 = (filterFold l2 idx).2.2 := by
  intro l1 l2 hrel
  induction hrel with
  | nil => intro idx; simp [filterFold]
  | cons hab hrest ih =>
    rename_i a b t1 t2
    intro idx
    have hc := filterClause_rel a b hab idx
    unfold filterFold
    have hidx : (filterClause a idx).2.2 = (filterClause b idx).2.2 := hc.2
    have ihr := ih (filterClause a idx).2.2
    constructor
    · simp only []
      rw [hc.1, hidx]
      rw [(ih (filterClause b idx).2.2).1]
    · simp only []
      rw [hidx]
      rw [(ih (filterClause b idx).2.2).2]

theorem searchStep_some (table : TableInfo) (s : String) (cols : List String)
    (o : ListOptions) (idx : Nat) (hs : o.search = some s) (hc : o.searchColumns = some cols) :
    searchStep table o idx =
      if s = "" ∨ cols.isEmpty then ([], [], idx)
      else
        if ((cols.filter (isValidColumn table)).map
            fun c => quoteIdent c ++ "::text ILIKE $" ++ toString idx).isEmpty then ([], [], idx)
        else (["(" ++ joinSep " OR " ((cols.filter (isValidColumn table)).map
            fun c => quoteIdent c ++ "::text ILIKE $" ++ toString idx) ++ ")"],
          [Value.vStr ("%" ++ escapeLike s ++ "%")], idx + 1) := by
  unfold searchStep
  rw [hs]
  rw [hc]

theorem searchStep_none1 (table : TableInfo) (o : ListOptions) (idx : Nat)
    (hs : o.search = none) : searchStep table o idx = ([], [], idx) := by
  unfold searchStep
  rw [hs]

theorem searchStep_none2 (table : TableInfo) (o : ListOptions) (idx : Nat)
    (hc : o.searchColumns = none) : searchStep table o idx = ([], [], idx) := by
  unfold searchStep
  rw [hc]
  cases o.search <;> rfl

/-- The search block depends on the term only through its truthiness. -/
theorem searchStep_rel (table : TableInfo) (o1 o2 : ListOptions)
    (hcols : o1.searchColumns = o2.searchColumns) (hser : SearchRel o1.search o2.search)
    (idx : Nat) :
    (searchStep table o1 idx).1 = (searchStep table o2 idx).1 ∧
    (searchStep table o1 idx).2.2 = (searchStep table o2 idx).2.2 := by
  cases hs1 : o1.search with
  | none =>
    cases hs2 : o2.search with
    | none => rw [searchStep_none1 table o1 idx hs1, searchStep_none1 table o2 idx hs2]; exact ⟨rfl, rfl⟩
    | some s2 => rw [hs1, hs2] at hser; simp [SearchRel] at hser
  | some s1 =>
    cases hs2 : o2.search with
    | none => rw [hs1, hs2] at hser; simp [SearchRel] at hser
    | some s2 =>
      rw [hs1, hs2] at hser
      simp only [SearchRel] at hser
      cases hc : o1.searchColumns with
      | none =>
        rw [searchStep_none2 table o1 idx hc, searchStep_none2 table o2 idx (hcols ▸ hc)]
        exact ⟨rfl, rfl⟩
      | some cols =>
        rw [searchStep_some table s1 cols o1 idx hs1 hc,
          searchStep_some table s2 cols o2 idx hs2 (hcols ▸ hc)]
        by_cases he1 : s1 = ""
        · have he2 := hser.mp he1
          rw [if_pos (Or.inl he1), if_pos (Or.inl he2)]
          exact ⟨rfl, rfl⟩
        · have he2 : ¬ s2 = "" := fun h => he1 (hser.mpr h)
          by_cases hce : cols.isEmpty = true
          · rw [if_pos (Or.inr hce), if_pos (Or.inr hce)]
            exact ⟨rfl, rfl⟩
          · rw [if_neg (show ¬(s1 = "" ∨ cols.isEmpty = true) from fun h => h.elim he1 hce),
              if_neg (show ¬(s2 = "" ∨ cols.isEmpty = true) from fun h => h.elim he2 hce)]
            cases hm : List.map (fun c => quoteIdent c ++ "::text ILIKE $" ++ toString idx)
                (List.filter (isValidColumn table) cols) with
            | nil => simp
            | cons a t => simp


/-- The WHERE builder gives the same clause text and next parameter
index (or identical errors) on two intents that differ only in filter
values and search term. -/
theorem buildWhereClauses_rel (table : TableInfo) (o1 o2 : ListOptions)
    (heq : OptionsEquiv o1 o2) (k : Nat) :
    ExceptRel (fun w1 w2 => w1.clause = w2.clause ∧ w1.nextParamIdx = w2.nextParamIdx)
      (buildWhereClauses table o1 k) (buildWhereClauses table o2 k) := by
  obtain ⟨_, _, _, _, _, hscols, hfil, hser⟩ := heq
  unfold buildWhereClauses
  have hparse : ExceptRel (List.Forall₂ ParsedEquiv)
      (match o1.filters with
        | some fs => parseFiltersFromObject fs table
        | none => Except.ok []) 
      (match o2.filters with
        | some fs => parseFiltersFromObject fs table
        | none => Except.ok []) := by
    cases hf1 : o1.filters with
    | none =>
      cases hf2 : o2.filters with
      | none => simp [ExceptRel]
      | some fs2 => rw [hf1, hf2] at hfil; simp [optionRel] at hfil
    | some fs1 =>
      cases hf2 : o2.filters with
      | none => rw [hf1, hf2] at hfil; simp [optionRel] at hfil
      | some fs2 =>
        rw [hf1, hf2] at hfil
        simp only [optionRel] at hfil
        exact parseFiltersFromObject_rel table fs1 fs2 hfil
  cases hp1 : (match o1.filters with
      | some fs => parseFiltersFromObject fs table
      | none => Except.ok []) with
  | error e =>
    cases hp2 : (match o2.filters with
        | some fs => parseFiltersFromObject fs table
        | none => Except.ok []) with
    | error e2 =>
      rw [hp1, hp2] at hparse
      simp only [ExceptRel] at hparse
      simp [ExceptRel, hparse]
    | ok p2 =>
      rw [hp1, hp2] at hparse
      simp [ExceptRel] at hparse
  | ok p1 =>
    cases hp2 : (match o2.filters with
        | some fs => parseFiltersFromObject fs table
        | none => Except.ok []) with
    | error e2 =>
      rw [hp1, hp2] at hparse
      simp [ExceptRel] at hparse
    | ok p2 =>
      rw [hp1, hp2] at hparse
      simp only [ExceptRel] at hparse
      have hfold := filterFold_rel p1 p2 hparse k
      simp only [ExceptRel]
      rw [hfold.1, hfold.2]
      have hsearch := searchStep_rel table o1 o2 hscols hser (filterFold p2 k).2.2
      rw [hsearch.1, hsearch.2]
      exact ⟨rfl, rfl⟩

/-- C1: the SQL text of the list query and of the count query is
byte-identical across two intents that differ only in filter values and
search term (with equal `in`-list lengths, equal `is` null-ness and
equal search truthiness): untrusted values reach only the parameter
vector, never the text. -/
theorem c1_sql_text_value_independent (cfg : Config) (table : TableInfo)
    (o1 o2 : ListOptions) (heq : OptionsEquiv o1 o2) :
    (buildSelectQuery cfg table o1).map QueryResult.text =
      (buildSelectQuery cfg table o2).map QueryResult.text ∧
    (buildCountQuery table o1).map QueryResult.text =
      (buildCountQuery table o2).map QueryResult.text := by
  have hw := buildWhereClauses_rel table o1 o2 heq 1
  obtain ⟨hpage, hpsize, hsortBy, hsortOrder, hsel, hscols, hfil, hser⟩ := heq
  constructor
  · unfold buildSelectQuery
    rw [← hsel, ← hpage, ← hpsize, ← hsortBy, ← hsortOrder]
    cases hg : getColumnNames table o1.select with
    | error e => simp
    | ok cols =>
      cases h1 : buildWhereClauses table o1 1 with
      | error e =>
        cases h2 : buildWhereClauses table o2 1 with
        | error e2 =>
          rw [h1, h2] at hw
          simp only [ExceptRel] at hw
          simp [hw]
        | ok w2 =>
          rw [h1, h2] at hw
          simp [ExceptRel] at hw
      | ok w1 =>
        cases h2 : buildWhereClauses table o2 1 with
        | error e2 =>
          rw [h1, h2] at hw
          simp [ExceptRel] at hw
        | ok w2 =>
          rw [h1, h2] at hw
          simp only [ExceptRel] at hw
          simp only [Except.map, hw.1, hw.2]
  · unfold buildCountQuery
    cases h1 : buildWhereClauses table o1 1 with
    | error e =>
      cases h2 : buildWhereClauses table o2 1 with
      | error e2 =>
        rw [h1, h2] at hw
        simp only [ExceptRel] at hw
        simp [hw]
      | ok w2 =>
        rw [h1, h2] at hw
        simp [ExceptRel] at hw
    | ok w1 =>
      cases h2 : buildWhereClauses table o2 1 with
      | error e2 =>
        rw [h1, h2] at hw
        simp [ExceptRel] at hw
      | ok w2 =>
        rw [h1, h2] at hw
        simp only [ExceptRel] at hw
        simp only [Except.map, hw.1]

/-- Witness for C1: two intents over `users` differing only in the
filter operand, the `in` list entries, the `is` spelling of null, and
the search term produce byte-identical list SQL. -/
theorem c1_sql_text_value_independent_witness :
    (buildSelectQuery ⟨50, 1000⟩ usersTable
      { filters := some [("name", "eq:Alice"), ("email", "in:a,b,c"), ("active", "is:null")],
        search := some "john", searchColumns := some ["name"] }).map QueryResult.text =
    (buildSelectQuery ⟨50, 1000⟩ usersTable
      { filters := some [("name", "eq:Bob; DROP TABLE users;--"), ("email", "in:x,y,z"),
          ("active", "is:NULL")],
        search := some "100%", searchColumns := some ["name"] }).map QueryResult.text := by
  exact (c1_sql_text_value_independent ⟨50, 1000⟩ usersTable _ _
    (by
      refine ⟨rfl, rfl, rfl, rfl, rfl, rfl, ?_, ?_⟩
      · exact List.Forall₂.cons (by decide)
          (List.Forall₂.cons (by decide) (List.Forall₂.cons (by decide) List.Forall₂.nil))
      · simp [SearchRel])).1

/-- Structure eta for strings. -/
theorem strMkData (s : String) : String.mk s.data = s := rfl

/-- A list is a `listIsPref` of itself extended. -/
theorem listIsPref_append (l m : List Char) : listIsPref l (l ++ m) = true := by
  induction l with
  | nil => rfl
  | cons a t ih => simp [listIsPref, ih]

/-- `findIdx?` locates the separator after a separator-free block. -/
theorem findIdxSep (c : Char) :
    ∀ (l1 : List Char) (l2 : List Char) (i : Nat), (∀ x ∈ l1, x ≠ c) →
      List.findIdx? (fun x => x = c) (l1 ++ c :: l2) i = some (i + l1.length) := by
  intro l1
  induction l1 with
  | nil => intro l2 i _; simp [List.findIdx?_cons]
  | cons a t ih =>
    intro l2 i h
    have ha : a ≠ c := h a (List.mem_cons_self a t)
    simp only [List.cons_append, List.findIdx?_cons, decide_eq_true_eq]
    rw [if_neg ha]
    rw [ih l2 (i + 1) (fun x hx => h x (List.mem_cons_of_mem a hx))]
    simp only [List.length_cons, Option.some.injEq]
    omega

/-- `findIdx?` misses a character absent from the list. -/
theorem findIdxNone (c : Char) (l : List Char) (h : ∀ x ∈ l, x ≠ c) :
    List.findIdx? (fun x => x = c) l = none := by
  rw [List.findIdx?_eq_none_iff]
  intro x hx
  simp [h x hx]

/-- The last dot of `A ++ "." ++ B` with `B` dot-free sits at `|A|`. -/
theorem lastDotIdx_sep (A B : List Char) (hB : ∀ x ∈ B, x ≠ '.') :
    lastDotIdx (A ++ '.' :: B) = some A.length := by
  unfold lastDotIdx
  have hrev : (A ++ '.' :: B).reverse = B.reverse ++ '.' :: A.reverse := by
    rw [List.reverse_append]
    simp
  rw [hrev]
  rw [findIdxSep '.' B.reverse A.reverse 0 (fun x hx => hB x (List.mem_reverse.mp hx))]
  rw [Option.map_some']
  simp only [Nat.zero_add, List.length_reverse, List.length_append,
    List.length_cons, Option.some.injEq]
  omega

/-- Characters of a valid label are neither dots nor colons. -/
theorem labelOk_chars (label : String) (h : labelOk label = true) :
    ∀ c ∈ label.data, c ≠ '.' ∧ c ≠ ':' := by
  intro c hc
  unfold labelOk at h
  rw [Bool.and_eq_true, List.all_eq_true] at h
  have := h.2 c hc
  constructor <;> rintro rfl <;> simp at this

/-- A valid label is nonempty. -/
theorem labelOk_ne_nil (label : String) (h : labelOk label = true) : label.data ≠ [] := by
  unfold labelOk at h
  rw [Bool.and_eq_true] at h
  simpa using h.1

/-- The lowercase hex digits contain no dot. -/
theorem hexChars_ne_dot : ∀ c ∈ "0123456789abcdef".data, c ≠ '.' := by decide

/-- `hexVal` is defined on the lowercase hex digits. -/
theorem hexVal_isSome_of_mem : ∀ c ∈ "0123456789abcdef".data, (hexVal c).isSome = true := by
  decide

/-- `hexVal` stays below 16 on the lowercase hex digits. -/
theorem hexVal_getD_lt : ∀ c ∈ "0123456789abcdef".data, (hexVal c).getD 0 < 16 := by decide

/-- `hexVal` is injective on the lowercase hex digits. -/
theorem hexVal_inj_mem : ∀ c ∈ "0123456789abcdef".data, ∀ c2 ∈ "0123456789abcdef".data,
    (hexVal c).getD 0 = (hexVal c2).getD 0 → c = c2 := by decide

/-- Unfolding equation for `hexDecodePairs` on a valid pair. -/
theorem hexDecodePairs_cons (a b : Char) (rest : List Char) (xa xb : Nat)
    (hxa : hexVal a = some xa) (hxb : hexVal b = some xb) :
    hexDecodePairs (a :: b :: rest) = (16 * xa + xb) :: hexDecodePairs rest := by
  conv_lhs => unfold hexDecodePairs
  rw [hxa, hxb]

/-- Hex decoding is injective on even-length strings of hex digits. -/
theorem hexDecodePairs_inj :
    ∀ (n : Nat) (cs1 cs2 : List Char), cs1.length ≤ n →
      (∀ c ∈ cs1, c ∈ "0123456789abcdef".data) →
      (∀ c ∈ cs2, c ∈ "0123456789abcdef".data) →
      cs1.length = cs2.length → cs1.length % 2 = 0 →
      hexDecodePairs cs1 = hexDecodePairs cs2 → cs1 = cs2 := by
  intro n
  induction n with
  | zero =>
    intro cs1 cs2 hn _ _ hlen _ _
    have h1 : cs1 = [] := List.length_eq_zero.mp (Nat.le_zero.mp hn)
    subst h1
    exact (List.length_eq_zero.mp hlen.symm).symm
  | succ m ih =>
    intro cs1 cs2 hn h1 h2 hlen heven hdec
    match cs1, cs2 with
    | [], [] => rfl
    | [], c2 :: t2 => simp at hlen
    | c1 :: t1, [] => simp at hlen
    | [a], b :: t2 => simp at heven
    | a :: b :: r1, [c2] => simp only [List.length_cons, List.length_nil] at hlen; omega
    | a :: b :: r1, a2 :: b2 :: r2 =>
      have hma := h1 a (by simp)
      have hmb := h1 b (by simp)
      have hma2 := h2 a2 (by simp)
      have hmb2 := h2 b2 (by simp)
      obtain ⟨xa, hxa⟩ := Option.isSome_iff_exists.mp (hexVal_isSome_of_mem a hma)
      obtain ⟨xb, hxb⟩ := Option.isSome_iff_exists.mp (hexVal_isSome_of_mem b hmb)
      obtain ⟨xa2, hxa2⟩ := Option.isSome_iff_exists.mp (hexVal_isSome_of_mem a2 hma2)
      obtain ⟨xb2, hxb2⟩ := Option.isSome_iff_exists.mp (hexVal_isSome_of_mem b2 hmb2)
      have hda := hexDecodePairs_cons a b r1 xa xb hxa hxb
      have hda2 := hexDecodePairs_cons a2 b2 r2 xa2 xb2 hxa2 hxb2
      rw [hda, hda2] at hdec
      have hhead : 16 * xa + xb = 16 * xa2 + xb2 := (List.cons.injEq _ _ _ _ ▸ hdec).1
      have htail : hexDecodePairs r1 = hexDecodePairs r2 := (List.cons.injEq _ _ _ _ ▸ hdec).2
      have hba : xa < 16 := by have := hexVal_getD_lt a hma; rwa [hxa] at this
      have hbb : xb < 16 := by have := hexVal_getD_lt b hmb; rwa [hxb] at this
      have hba2 : xa2 < 16 := by have := hexVal_getD_lt a2 hma2; rwa [hxa2] at this
      have hbb2 : xb2 < 16 := by have := hexVal_getD_lt b2 hmb2; rwa [hxb2] at this
      have hxaeq : xa = xa2 ∧ xb = xb2 := by omega
      have haeq : a = a2 := hexVal_inj_mem a hma a2 hma2 (by rw [hxa, hxa2]; simpa using hxaeq.1)
      have hbeq : b = b2 := hexVal_inj_mem b hmb b2 hmb2 (by rw [hxb, hxb2]; simpa using hxaeq.2)
      have hr : r1 = r2 := by
        apply ih r1 r2
        · simp only [List.length_cons] at hn; omega
        · exact fun c hc => h1 c (by simp [hc])
        · exact fun c hc => h2 c (by simp [hc])
        · simp only [List.length_cons] at hlen; omega
        · simp only [List.length_cons] at heven; omega
        · exact htail
      rw [haeq, hbeq, hr]

/-- `verifyHmac` rejects a provided digest different from the expected
one when both are 64-character lowercase hex strings. -/
theorem verifyHmac_false_of_ne (hmac : HmacFn) (data mac secret : String)
    (hexp : isLowerHex64 (hmac secret data)) (hprov : isLowerHex64 mac)
    (hne : mac ≠ hmac secret data) :
    verifyHmac hmac data mac secret = false := by
  unfold verifyHmac
  rw [Bool.and_eq_false_iff]
  by_cases hl : (hexDecodePairs mac.data).length = (hexDecodePairs (hmac secret data).data).length
  · right
    rw [decide_eq_false_iff_not]
    intro hdeq
    apply hne
    have : mac.data = (hmac secret data).data :=
      hexDecodePairs_inj 64 mac.data (hmac secret data).data (le_of_eq hprov.1)
        hprov.2 hexp.2 (by rw [hprov.1, hexp.1]) (by rw [hprov.1]) hdeq
    rw [← strMkData mac, this, strMkData]
  · left
    rw [decide_eq_false_iff_not]
    exact hl

/-- The base64url alphabet characters avoid the dot and the colon. -/
theorem b64Char_ne (n : Nat) : b64Char n ≠ '.' ∧ b64Char n ≠ ':' := by
  by_cases h : n < 64
  · revert h
    revert n
    decide
  · unfold b64Char
    rw [List.getD_eq_default _ _ (by simpa using Nat.le_of_not_lt h)]
    decide

/-- Base64url-encoded bytes contain neither dots nor colons. -/
theorem b64urlEncodeBytes_ne (bs : List Nat) :
    ∀ c ∈ b64urlEncodeBytes bs, c ≠ '.' ∧ c ≠ ':' := by
  induction bs using b64urlEncodeBytes.induct with
  | case1 => intro c hc; simp [b64urlEncodeBytes] at hc
  | case2 a =>
    intro c hc
    simp only [b64urlEncodeBytes, List.mem_cons, List.not_mem_nil, or_false] at hc
    rcases hc with rfl | rfl <;> exact b64Char_ne _
  | case3 a b =>
    intro c hc
    simp only [b64urlEncodeBytes, List.mem_cons, List.not_mem_nil, or_false] at hc
    rcases hc with rfl | rfl | rfl <;> exact b64Char_ne _
  | case4 a b d rest ih =>
    intro c hc
    simp only [b64urlEncodeBytes, List.mem_cons] at hc
    rcases hc with rfl | rfl | rfl | rfl | hmem
    · exact b64Char_ne _
    · exact b64Char_ne _
    · exact b64Char_ne _
    · exact b64Char_ne _
    · exact ih c hmem

/-- Characters of a base64url-encoded string avoid dot and colon. -/
theorem toBase64url_chars (s : String) :
    ∀ c ∈ (toBase64url s).data, c ≠ '.' ∧ c ≠ ':' := by
  intro c hc
  exact b64urlEncodeBytes_ne (utf8Encode s) c hc

/-- `parseKeyData` on a valid label alone yields the legacy full-access
form. -/
theorem parseKeyData_legacy (label : String) (h : labelOk label = true) :
    parseKeyData label = some ⟨label, none⟩ := by
  unfold parseKeyData
  rw [findIdxNone ':' label.data (fun x hx => (labelOk_chars label h x hx).2)]
  simp [h]

/-- `verifyApiKey` on a well-shaped token `pgcrud_{data}.{mac}` (with a
dot-free data portion and a dot-free nonempty MAC portion) reduces to
parsing the data and checking the MAC. -/
theorem verifyApiKey_split (hmac : HmacFn) (secret dataStr macStr : String)
    (_hdata : ∀ c ∈ dataStr.data, c ≠ '.') (hdne : dataStr.data ≠ [])
    (hmacd : ∀ c ∈ macStr.data, c ≠ '.') (hmne : macStr.data ≠ []) :
    verifyApiKey hmac (keyPref ++ dataStr ++ "." ++ macStr) secret =
      (match parseKeyData dataStr with
       | none => ⟨false, none, none⟩
       | some parsed =>
         if verifyHmac hmac dataStr macStr secret then
           ⟨true, some parsed.label, some parsed.permissions⟩
         else ⟨false, none, none⟩) := by
  have hdd : (keyPref ++ dataStr ++ "." ++ macStr).data =
      keyPref.data ++ (dataStr.data ++ '.' :: macStr.data) := by
    simp [String.data_append, List.append_assoc]
  have hlen0 : dataStr.data.length ≠ 0 := by
    intro h
    exact hdne (List.length_eq_zero.mp h)
  have hdrop : (dataStr.data ++ '.' :: macStr.data).drop (dataStr.data.length + 1) =
      macStr.data := by
    rw [show dataStr.data ++ '.' :: macStr.data = (dataStr.data ++ ['.']) ++ macStr.data by simp]
    rw [show dataStr.data.length + 1 = (dataStr.data ++ ['.']).length by simp]
    exact List.drop_left _ _
  have hmem : macStr.data.isEmpty = false := by
    cases hm : macStr.data with
    | nil => exact absurd hm hmne
    | cons a t => rfl
  unfold verifyApiKey
  simp only [hdd, listIsPref_append, Bool.not_true, Bool.false_eq_true, if_false,
    List.drop_left, lastDotIdx_sep dataStr.data macStr.data hmacd]
  simp only [hlen0, if_false, List.take_left, hdrop, strMkData, hmem, ite_false]
  simp [hmem]

/-- C4: trimming the claims portion of a scoped token (keeping prefix,
label, dot and the original MAC) is rejected by `verifyApiKey`, and
inserting a claims portion into a legacy label-only token without
recomputing the MAC is likewise rejected — under the facts, true of real
HMAC-SHA-256, that digests are 64-character lowercase hex and that the
two involved data strings digest differently. -/
theorem c4_token_tamper_resistance (hmac : HmacFn) (label secret : String)
    (perms : List (String × String)) (hlabel : labelOk label = true)
    (hval : validatePermissions perms = Except.ok ())
    (hhex : ∀ d, isLowerHex64 (hmac secret d))
    (hdist : hmac secret (label ++ ":" ++ toBase64url (jsonStringifyPerms perms)) ≠
      hmac secret label) :
    generateApiKey hmac label secret (some perms) =
      Except.ok (keyPref ++ (label ++ ":" ++ toBase64url (jsonStringifyPerms perms)) ++ "." ++
        hmac secret (label ++ ":" ++ toBase64url (jsonStringifyPerms perms))) ∧
    generateApiKey hmac label secret none =
      Except.ok (keyPref ++ label ++ "." ++ hmac secret label) ∧
    (verifyApiKey hmac (keyPref ++ label ++ "." ++
      hmac secret (label ++ ":" ++ toBase64url (jsonStringifyPerms perms))) secret).valid =
      false ∧
    (verifyApiKey hmac (keyPref ++ (label ++ ":" ++ toBase64url (jsonStringifyPerms perms)) ++
      "." ++ hmac secret label) secret).valid = false := by
  have hex64_chars : ∀ d, ∀ c ∈ (hmac secret d).data, c ≠ '.' := by
    intro d c hc
    exact hexChars_ne_dot c ((hhex d).2 c hc)
  have hex64_ne_nil : ∀ d, (hmac secret d).data ≠ [] := by
    intro d h
    have := (hhex d).1
    rw [h] at this
    simp at this
  refine ⟨?_, ?_, ?_, ?_⟩
  · unfold generateApiKey
    simp only [hlabel, not_true, Bool.true_eq_false, if_false, hval]
  · unfold generateApiKey
    simp only [hlabel, not_true, Bool.true_eq_false, if_false]
  · rw [verifyApiKey_split hmac secret label
      (hmac secret (label ++ ":" ++ toBase64url (jsonStringifyPerms perms)))
      (fun c hc => (labelOk_chars label hlabel c hc).1) (labelOk_ne_nil label hlabel)
      (hex64_chars _) (hex64_ne_nil _)]
    rw [parseKeyData_legacy label hlabel]
    rw [verifyHmac_false_of_ne hmac label _ secret (hhex label) (hhex _) hdist]
    rfl
  · have hdataChars : ∀ c ∈ (label ++ ":" ++ toBase64url (jsonStringifyPerms perms)).data,
        c ≠ '.' := by
      intro c hc
      rw [String.data_append, String.data_append] at hc
      rcases List.mem_append.mp hc with hm | hm
      · rcases List.mem_append.mp hm with hm2 | hm2
        · exact (labelOk_chars label hlabel c hm2).1
        · simp only [show (":" : String).data = [':'] from rfl, List.mem_singleton] at hm2
          subst hm2
          decide
      · exact (toBase64url_chars _ c hm).1
    have hdataNe : (label ++ ":" ++ toBase64url (jsonStringifyPerms perms)).data ≠ [] := by
      rw [String.data_append, String.data_append]
      intro h
      have := List.append_eq_nil.mp h
      exact labelOk_ne_nil label hlabel (List.append_eq_nil.mp this.1).1
    rw [verifyApiKey_split hmac secret (label ++ ":" ++ toBase64url (jsonStringifyPerms perms))
      (hmac secret label) hdataChars hdataNe (hex64_chars _) (hex64_ne_nil _)]
    cases parseKeyData (label ++ ":" ++ toBase64url (jsonStringifyPerms perms)) with
    | none => rfl
    | some parsed =>
      rw [verifyHmac_false_of_ne hmac _ _ secret (hhex _) (hhex label) (fun h => hdist h.symm)]
      rfl

/-- Witness for C4 at a concrete label, secret and permissions map,
with `hmacStub` standing in for the digest primitive. -/
theorem c4_token_tamper_resistance_witness :
    (verifyApiKey hmacStub (keyPref ++ "svc" ++ "." ++
      hmacStub "s" ("svc" ++ ":" ++ toBase64url (jsonStringifyPerms [("public", "r")])))
      "s").valid = false := by
  have h := c4_token_tamper_resistance hmacStub "svc" "s" [("public", "r")]
    (by decide) (by rfl)
    (by
      intro d
      by_cases hd : d = "svc" <;> simp [hmacStub, hd] <;> decide)
    (by decide)
  exact h.2.2.1

/-- `parseKeyData` accepts `label:e30` — the empty-claims payload the
generator can never mint — yielding an empty permissions map. -/
theorem parseKeyData_e30 (label : String) (h : labelOk label = true) :
    parseKeyData (label ++ ":" ++ "e30") = some ⟨label, some []⟩ := by
  have hd : (label ++ ":" ++ "e30").data = label.data ++ ':' :: ['e', '3', '0'] := by
    simp [String.data_append]
  have hlen0 : label.data.length ≠ 0 := by
    intro h0
    exact labelOk_ne_nil label h (List.length_eq_zero.mp h0)
  have hdrop : (label.data ++ ':' :: ['e', '3', '0']).drop (label.data.length + 1) =
      ['e', '3', '0'] := by
    rw [show label.data ++ ':' :: ['e', '3', '0'] =
      (label.data ++ [':']) ++ ['e', '3', '0'] by simp]
    rw [show label.data.length + 1 = (label.data ++ [':']).length by simp]
    exact List.drop_left _ _
  have hjson : jsonParse (fromBase64url (String.mk ['e', '3', '0'])) =
      some (JVal.jobj []) := rfl
  unfold parseKeyData
  rw [hd]
  rw [findIdxSep ':' label.data ['e', '3', '0'] 0 (fun x hx => (labelOk_chars label h x hx).2)]
  simp only [Nat.zero_add]
  simp only [hlen0, if_false, List.take_left, strMkData, h, hdrop, ite_false]
  simp only [not_true, Bool.true_eq_false, if_false]
  simp only [show (['e', '3', '0'] : List Char).isEmpty = false from rfl,
    Bool.false_eq_true, if_false]
  rw [hjson]
  rfl

/-- C10: the verifier accepts a token class the generator can never
mint.  For any valid label and secret, `label:base64url("{}")` with a
correctly computed MAC verifies as valid with an *empty* permissions
map, while `generateApiKey` rejects the empty map; under that empty map
`hasPermission` denies every schema and every access mode. -/
theorem c10_empty_claims_token (hmac : HmacFn) (label secret : String)
    (hlabel : labelOk label = true) (hhex : ∀ d, isLowerHex64 (hmac secret d)) :
    toBase64url (String.mk [lbraceChar, rbraceChar]) = "e30" ∧
    generateApiKey hmac label secret (some []) =
      Except.error "Permissions must contain at least one schema entry" ∧
    verifyApiKey hmac (keyPref ++ (label ++ ":" ++ "e30") ++ "." ++
        hmac secret (label ++ ":" ++ "e30")) secret =
      ⟨true, some label, some (some [])⟩ ∧
    (∀ schema access, hasPermission (PermsArg.scoped []) schema access = false) := by
  have hex64_chars : ∀ d, ∀ c ∈ (hmac secret d).data, c ≠ '.' := by
    intro d c hc
    exact hexChars_ne_dot c ((hhex d).2 c hc)
  have hex64_ne_nil : ∀ d, (hmac secret d).data ≠ [] := by
    intro d hn
    have := (hhex d).1
    rw [hn] at this
    simp at this
  refine ⟨rfl, ?_, ?_, ?_⟩
  · unfold generateApiKey
    simp only [hlabel, not_true, Bool.true_eq_false, if_false]
    rfl
  · have hdataChars : ∀ c ∈ (label ++ ":" ++ "e30").data, c ≠ '.' := by
      intro c hc
      rw [String.data_append, String.data_append] at hc
      rcases List.mem_append.mp hc with hm | hm
      · rcases List.mem_append.mp hm with hm2 | hm2
        · exact (labelOk_chars label hlabel c hm2).1
        · simp only [show (":" : String).data = [':'] from rfl, List.mem_singleton] at hm2
          subst hm2
          decide
      · simp only [show ("e30" : String).data = ['e', '3', '0'] from rfl,
          List.mem_cons, List.not_mem_nil, or_false] at hm
        rcases hm with h3 | h3 | h3 <;> subst h3 <;> decide
    have hdataNe : (label ++ ":" ++ "e30").data ≠ [] := by
      rw [String.data_append, String.data_append]
      intro hn
      have := List.append_eq_nil.mp hn
      exact labelOk_ne_nil label hlabel (List.append_eq_nil.mp this.1).1
    rw [verifyApiKey_split hmac secret (label ++ ":" ++ "e30")
      (hmac secret (label ++ ":" ++ "e30")) hdataChars hdataNe (hex64_chars _)
      (hex64_ne_nil _)]
    rw [parseKeyData_e30 label hlabel]
    have hv : verifyHmac hmac (label ++ ":" ++ "e30")
        (hmac secret (label ++ ":" ++ "e30")) secret = true := by
      unfold verifyHmac
      simp
    rw [hv]
    rfl
  · intro schema access
    rfl

/-- Witness for C10 at a concrete label and secret with the `hmacStub`
digest stand-in. -/
theorem c10_empty_claims_token_witness :
    verifyApiKey hmacStub (keyPref ++ ("svc2" ++ ":" ++ "e30") ++ "." ++
        hmacStub "s" ("svc2" ++ ":" ++ "e30")) "s" =
      ⟨true, some "svc2", some (some [])⟩ ∧
    hasPermission (PermsArg.scoped []) "public" "r" = false := by
  have h := c10_empty_claims_token hmacStub "svc2" "s" (by decide)
    (by
      intro d
      by_cases hd : d = "svc" <;> simp [hmacStub, hd] <;> decide)
  exact ⟨h.2.2.1, h.2.2.2 "public" "r"⟩

/-- Totality of the lexicographic char-list comparator. -/
theorem charListLe_total (a b : List Char) : (charListLe a b || charListLe b a) = true := by
  induction a generalizing b with
  | nil => simp [charListLe]
  | cons x xs ih =>
    cases b with
    | nil => simp [charListLe]
    | cons y ys =>
      by_cases h1 : x < y
      · simp [charListLe, h1]
      · by_cases h2 : y < x
        · simp [charListLe, h1, h2]
        · simp only [charListLe, if_neg h1, if_neg h2]
          exact ih ys

theorem charListLe_antisymm {a b : List Char} (h1 : charListLe a b = true)
    (h2 : charListLe b a = true) : a = b := by
  induction a generalizing b with
  | nil =>
    cases b with
    | nil => rfl
    | cons y ys => simp [charListLe] at h2
  | cons x xs ih =>
    cases b with
    | nil => simp [charListLe] at h1
    | cons y ys =>
      by_cases hxy : x < y
      · rw [charListLe, if_neg (asymm hxy), if_pos hxy] at h2
        exact absurd h2 (by simp)
      · by_cases hyx : y < x
        · rw [charListLe, if_neg hxy, if_pos hyx] at h1
          exact absurd h1 (by simp)
        · have hxe : x = y := le_antisymm (not_lt.mp hyx) (not_lt.mp hxy)
          subst hxe
          rw [charListLe, if_neg hxy, if_neg hxy] at h1 h2
          rw [ih h1 h2]

theorem charListLe_trans {a b c : List Char} (h1 : charListLe a b = true)
    (h2 : charListLe b c = true) : charListLe a c = true := by
  induction a generalizing b c with
  | nil => simp [charListLe]
  | cons x xs ih =>
    cases b with
    | nil => simp [charListLe] at h1
    | cons y ys =>
      cases c with
      | nil => simp [charListLe] at h2
      | cons z zs =>
        by_cases hxy : x < y
        · by_cases hyz : y < z
          · rw [charListLe, if_pos (lt_trans hxy hyz)]
          · by_cases hzy : z < y
            · rw [charListLe, if_neg hyz, if_pos hzy] at h2
              exact absurd h2 (by simp)
            · have : y = z := le_antisymm (not_lt.mp hzy) (not_lt.mp hyz)
              subst this
              rw [charListLe, if_pos hxy]
        · by_cases hyx : y < x
          · rw [charListLe, if_neg hxy, if_pos hyx] at h1
            exact absurd h1 (by simp)
          · have hxe : x = y := le_antisymm (not_lt.mp hyx) (not_lt.mp hxy)
            subst hxe
            rw [charListLe, if_neg hxy, if_neg hxy] at h1
            by_cases hxz : x < z
            · rw [charListLe, if_pos hxz]
            · by_cases hzx : z < x
              · rw [charListLe, if_neg hxz, if_pos hzx] at h2
                exact absurd h2 (by simp)
              · have hxez : x = z := le_antisymm (not_lt.mp hzx) (not_lt.mp hxz)
                subst hxez
                rw [charListLe, if_neg hxz, if_neg hxz] at h2 ⊢
                exact ih h1 h2

theorem strData_inj {a b : String} (h : a.data = b.data) : a = b := by
  cases a
  cases b
  exact congrArg String.mk h

theorem strLeJS_total (a b : String) : (strLeJS a b || strLeJS b a) = true :=
  charListLe_total a.data b.data

theorem strLeJS_antisymm {a b : String} (h1 : strLeJS a b = true)
    (h2 : strLeJS b a = true) : a = b :=
  strData_inj (charListLe_antisymm h1 h2)

theorem strLeJS_trans {a b c : String} (h1 : strLeJS a b = true)
    (h2 : strLeJS b c = true) : strLeJS a c = true :=
  charListLe_trans h1 h2

/-- Two permuted lists have the same `mergeSort` image whenever the
comparator is transitive, total, and antisymmetric on the list's
elements. -/
theorem mergeSort_eq_of_perm {α : Type} (le : α → α → Bool)
    (htr : ∀ a b c, le a b = true → le b c = true → le a c = true)
    (hto : ∀ a b, (le a b || le b a) = true)
    {l1 l2 : List α}
    (hanti : ∀ a b, a ∈ l1 → b ∈ l1 → le a b = true → le b a = true → a = b)
    (hp : l1.Perm l2) :
    l1.mergeSort le = l2.mergeSort le := by
  have hs1 := List.sorted_mergeSort htr hto l1
  have hs2 := List.sorted_mergeSort htr hto l2
  have hpp : (l1.mergeSort le).Perm (l2.mergeSort le) :=
    ((List.mergeSort_perm l1 le).trans hp).trans (List.mergeSort_perm l2 le).symm
  exact List.Perm.eq_of_sorted
    (fun a b ha hb => hanti a b ((List.mergeSort_perm l1 le).mem_iff.mp ha)
      (hp.symm.mem_iff.mp ((List.mergeSort_perm l2 le).mem_iff.mp hb)))
    hs1 hs2 hpp

theorem map_eq_of_forall2 {α β γ : Type} {R : α → β → Prop} (f : α → γ) (g : β → γ)
    {l1 : List α} {l2 : List β} (h : List.Forall₂ R l1 l2)
    (he : ∀ a ∈ l1, ∀ b ∈ l2, R a b → f a = g b) :
    l1.map f = l2.map g := by
  induction h with
  | nil => rfl
  | cons hR htl ih =>
    simp only [List.map_cons]
    rw [he _ (by simp) _ (by simp) hR,
      ih (fun a ha b hb hr => he a (by simp [ha]) b (by simp [hb]) hr)]

theorem tableCanon_eq {t1 t2 : TableInfo} (h : tableReorder t1 t2)
    (hord : (t1.columns.map fun c => c.ordinalPosition).Nodup)
    (hfk : (t1.foreignKeys.map fun f => f.constraintName).Nodup) :
    tableCanon t1 = tableCanon t2 := by
  obtain ⟨hs, hn, hq, _, hc, hpk, hf⟩ := h
  have hcols : sortColumns t1.columns = sortColumns t2.columns := by
    refine mergeSort_eq_of_perm _ ?_ ?_ ?_ hc
    · intro a b c hab hbc
      simp only [decide_eq_true_eq] at *
      omega
    · intro a b
      by_cases hle : a.ordinalPosition ≤ b.ordinalPosition
      · simp [hle]
      · simp [hle, le_of_not_le hle]
    · intro a b ha hb hab hba
      simp only [decide_eq_true_eq] at hab hba
      exact List.inj_on_of_nodup_map hord ha hb (by omega)
  have hpks : t1.primaryKeys.mergeSort strLeJS = t2.primaryKeys.mergeSort strLeJS :=
    mergeSort_eq_of_perm strLeJS (fun _ _ _ => charListLe_trans) strLeJS_total
      (fun _ _ _ _ => strLeJS_antisymm) hpk
  have hfks : (t1.foreignKeys.mergeSort fun a b => strLeJS a.constraintName b.constraintName) =
      t2.foreignKeys.mergeSort fun a b => strLeJS a.constraintName b.constraintName := by
    refine mergeSort_eq_of_perm _ ?_ ?_ ?_ hf
    · intro a b c hab hbc
      exact charListLe_trans hab hbc
    · intro a b
      exact strLeJS_total _ _
    · intro a b ha hb hab hba
      exact List.inj_on_of_nodup_map hfk ha hb (strLeJS_antisymm hab hba)
  unfold tableCanon
  rw [hs, hn, hq, hcols, hpks, hfks]

theorem canonicalString_eq {s1 s2 : DatabaseSchema} (h : schemaReorder s1 s2)
    (hfqn : (s1.tables.map fun t => t.fqn).Nodup)
    (hord : ∀ t ∈ s1.tables, (t.columns.map fun c => c.ordinalPosition).Nodup)
    (hfk : ∀ t ∈ s1.tables, (t.foreignKeys.map fun f => f.constraintName).Nodup) :
    canonicalString s1 = canonicalString s2 := by
  obtain ⟨hsch, mid, hperm, hfa⟩ := h
  have hschEq : s1.schemas.mergeSort strLeJS = s2.schemas.mergeSort strLeJS :=
    mergeSort_eq_of_perm strLeJS (fun _ _ _ => charListLe_trans) strLeJS_total
      (fun _ _ _ _ => strLeJS_antisymm) hsch
  -- per-element canon equality between mid and s2.tables
  have hmidEq : mid.map tableKeyCanon = s2.tables.map tableKeyCanon := by
    refine map_eq_of_forall2 _ _ hfa ?_
    intro a ha b _ hr
    have haIn : a ∈ s1.tables := hperm.symm.mem_iff.mp ha
    have hcanon : tableCanon a = tableCanon b :=
      tableCanon_eq hr (hord a haIn) (hfk a haIn)
    unfold tableKeyCanon
    rw [hr.2.2.1, hcanon]
  have hpairPerm : (s1.tables.map tableKeyCanon).Perm (s2.tables.map tableKeyCanon) := by
    rw [← hmidEq]
    exact hperm.map tableKeyCanon
  -- pair comparator facts
  have htrP : ∀ a b c : String × String, strLeJS a.1 b.1 = true → strLeJS b.1 c.1 = true →
      strLeJS a.1 c.1 = true := fun _ _ _ hab hbc => charListLe_trans hab hbc
  have htoP : ∀ a b : String × String, (strLeJS a.1 b.1 || strLeJS b.1 a.1) = true :=
    fun a b => strLeJS_total a.1 b.1
  have hfqnPair : ((s1.tables.map tableKeyCanon).map Prod.fst).Nodup := by
    rw [List.map_map]
    exact hfqn
  -- the sorted pair lists coincide
  have hLe : ((s1.tables.mergeSort fun a b => strLeJS a.fqn b.fqn).map tableKeyCanon) =
      ((s2.tables.mergeSort fun a b => strLeJS a.fqn b.fqn).map tableKeyCanon) := by
    have hsort1 : List.Pairwise (fun a b : TableInfo => strLeJS a.fqn b.fqn = true)
        (s1.tables.mergeSort fun a b => strLeJS a.fqn b.fqn) := by
      refine List.sorted_mergeSort ?_ ?_ s1.tables
      · intro a b c hab hbc
        exact strLeJS_trans hab hbc
      · intro a b
        exact strLeJS_total a.fqn b.fqn
    have hsort2 : List.Pairwise (fun a b : TableInfo => strLeJS a.fqn b.fqn = true)
        (s2.tables.mergeSort fun a b => strLeJS a.fqn b.fqn) := by
      refine List.sorted_mergeSort ?_ ?_ s2.tables
      · intro a b c hab hbc
        exact strLeJS_trans hab hbc
      · intro a b
        exact strLeJS_total a.fqn b.fqn
    have hs1 : List.Pairwise (fun a b : String × String => strLeJS a.1 b.1 = true)
        ((s1.tables.mergeSort fun a b => strLeJS a.fqn b.fqn).map tableKeyCanon) :=
      List.Pairwise.map tableKeyCanon (fun a b hab => hab) hsort1
    have hs2 : List.Pairwise (fun a b : String × String => strLeJS a.1 b.1 = true)
        ((s2.tables.mergeSort fun a b => strLeJS a.fqn b.fqn).map tableKeyCanon) :=
      List.Pairwise.map tableKeyCanon (fun a b hab => hab) hsort2
    have hppPerm : ((s1.tables.mergeSort fun a b => strLeJS a.fqn b.fqn).map tableKeyCanon).Perm
        ((s2.tables.mergeSort fun a b => strLeJS a.fqn b.fqn).map tableKeyCanon) :=
      (((List.mergeSort_perm s1.tables _).map tableKeyCanon).trans hpairPerm).trans
        ((List.mergeSort_perm s2.tables _).map tableKeyCanon).symm
    refine List.Perm.eq_of_sorted ?_ hs1 hs2 hppPerm
    intro a b ha hb hab hba
    have haM : a ∈ s1.tables.map tableKeyCanon :=
      ((List.mergeSort_perm s1.tables _).map tableKeyCanon).mem_iff.mp ha
    have hbM : b ∈ s1.tables.map tableKeyCanon :=
      hpairPerm.symm.mem_iff.mp
        (((List.mergeSort_perm s2.tables _).map tableKeyCanon).mem_iff.mp hb)
    exact List.inj_on_of_nodup_map hfqnPair haM hbM (strLeJS_antisymm hab hba)
  have hmapEq : ((s1.tables.mergeSort fun a b => strLeJS a.fqn b.fqn).map tableCanon) =
      ((s2.tables.mergeSort fun a b => strLeJS a.fqn b.fqn).map tableCanon) := by
    have h1 : ∀ l : List TableInfo, l.map tableCanon = (l.map tableKeyCanon).map Prod.snd := by
      intro l
      rw [List.map_map]
      rfl
    rw [h1, h1, hLe]
  unfold canonicalString
  rw [hschEq, hmapEq]

theorem hexDigitChar_mem {n : Nat} (h : n < 16) :
    hexDigitChar n ∈ "0123456789abcdef".data := by
  interval_cases n <;> decide

theorem wordBytes_lt (w : Nat) : ∀ b ∈ wordBytes w, b < 256 := by
  intro b hb
  simp only [wordBytes, List.mem_cons, List.not_mem_nil, or_false] at hb
  rcases hb with h | h | h | h <;> subst h <;> exact Nat.mod_lt _ (by norm_num)

theorem stateBytes_lt (st : SHAState) : ∀ b ∈ stateBytes st, b < 256 := by
  intro b hb
  unfold stateBytes at hb
  simp only [List.mem_append] at hb
  rcases hb with ((((((h | h) | h) | h) | h) | h) | h) | h <;> exact wordBytes_lt _ b h

theorem stateBytes_length (st : SHAState) : (stateBytes st).length = 32 := by
  simp [stateBytes, wordBytes]

theorem flatMapPair_length (f : Nat → List Char) (hf : ∀ b, (f b).length = 2)
    (bs : List Nat) : (bs.flatMap f).length = 2 * bs.length := by
  induction bs with
  | nil => simp
  | cons b bs ih =>
    simp only [List.flatMap_cons, List.length_append, hf, ih, List.length_cons]
    ring

theorem sha256Hex_isLowerHex64 (msg : List Nat) : isLowerHex64 (sha256Hex msg) := by
  unfold sha256Hex bytesToHex sha256Bytes
  constructor
  · rw [show (String.mk ((stateBytes ((chunks64 (shaPad msg).length (shaPad msg)).foldl shaCompress shaInit)).flatMap fun b => [hexDigitChar (b / 16), hexDigitChar (b % 16)])).data = (stateBytes ((chunks64 (shaPad msg).length (shaPad msg)).foldl shaCompress shaInit)).flatMap fun b => [hexDigitChar (b / 16), hexDigitChar (b % 16)] from rfl]
    rw [flatMapPair_length (fun b => [hexDigitChar (b / 16), hexDigitChar (b % 16)]) (fun b => rfl), stateBytes_length]
  · intro c hc
    have hc2 : c ∈ (stateBytes ((chunks64 (shaPad msg).length (shaPad msg)).foldl shaCompress shaInit)).flatMap fun b => [hexDigitChar (b / 16), hexDigitChar (b % 16)] := hc
    rw [List.mem_flatMap] at hc2
    obtain ⟨b, hbmem, hcmem⟩ := hc2
    have hblt : b < 256 := stateBytes_lt _ b hbmem
    simp only [List.mem_cons, List.not_mem_nil, or_false] at hcmem
    rcases hcmem with h | h <;> subst h
    · exact hexDigitChar_mem (by omega)
    · exact hexDigitChar_mem (by omega)

/-- C9: `computeDatabaseHash` is a 64-character lowercase hex digest,
and — for schema models whose table map has distinct `fqn` keys and
whose tables have pairwise-distinct column ordinal positions and
pairwise-distinct FK constraint names — it is invariant under
reordering the schemas list, the table map's entries, and each table's
column, primary-key, and foreign-key lists. -/
theorem c9_hash_permutation_invariance (s1 s2 : DatabaseSchema)
    (hfqn : (s1.tables.map fun t => t.fqn).Nodup)
    (hord : ∀ t ∈ s1.tables, (t.columns.map fun c => c.ordinalPosition).Nodup)
    (hfk : ∀ t ∈ s1.tables, (t.foreignKeys.map fun f => f.constraintName).Nodup)
    (h : schemaReorder s1 s2) :
    isLowerHex64 (computeDatabaseHash s1) ∧
    computeDatabaseHash s1 = computeDatabaseHash s2 := by
  constructor
  · exact sha256Hex_isLowerHex64 _
  · unfold computeDatabaseHash
    rw [canonicalString_eq h hfqn hord hfk]

/-- Witness for C9 on a concrete two-table schema: schemas swapped,
tables swapped, `c9t1`'s columns reversed, `c9t2`'s PK and FK lists
reversed. -/
theorem c9_hash_permutation_invariance_witness :
    isLowerHex64 (computeDatabaseHash c9s1) ∧
    computeDatabaseHash c9s1 = computeDatabaseHash c9s2 :=
  c9_hash_permutation_invariance c9s1 c9s2 (by decide) (by decide) (by decide)
    ⟨List.Perm.swap "app" "public" [],
     [c9t2, c9t1],
     List.Perm.swap c9t2 c9t1 [],
     List.Forall₂.cons
       ⟨rfl, rfl, rfl, rfl, List.Perm.refl _,
        (List.reverse_perm c9t2.primaryKeys).symm,
        (List.reverse_perm c9t2.foreignKeys).symm⟩
       (List.Forall₂.cons
         ⟨rfl, rfl, rfl, rfl, (List.reverse_perm c9t1.columns).symm,
          List.Perm.refl _, List.Perm.refl _⟩
         List.Forall₂.nil)⟩

end PgCrud
